import Mathlib

/-!
Verification development for the cassbot core (src/cassbot.py): mask matching,
the privilege resolver (AuthMap), the event/command dispatcher, the plugin
registry of CassBotService, and state persistence.  Python data is embedded
shallowly: dicts become association lists, sets become duplicate-free lists
with membership semantics, exceptions become Except values, and the stdlib
fnmatch / shlex collaborators are modelled from their documented behaviour
(they are not part of this repository).
-/

namespace Cassbot

/-! ### Association-list helpers (Python dict semantics) -/

/-- Lookup of a key in an association list (dict access). -/
def alookup {β : Type} (k : String) : List (String × β) → Option β
  | [] => none
  | (k2, v) :: rest => if k2 == k then some v else alookup k rest

/-- In-place update of a key (dict assignment): replaces the first binding,
appends a new one at the end when the key is absent. -/
def aupdate {β : Type} (k : String) (v : β) : List (String × β) → List (String × β)
  | [] => [(k, v)]
  | (k2, v2) :: rest => if k2 == k then (k, v) :: rest else (k2, v2) :: aupdate k v rest

/-- Removal of every binding of a key (dict pop). -/
def aerase {β : Type} (k : String) (l : List (String × β)) : List (String × β) :=
  l.filter (fun e => !(e.1 == k))

/-- Python dict.setdefault: keep an existing binding, else append the default. -/
def asetdefault {β : Type} (k : String) (v : β) (l : List (String × β)) : List (String × β) :=
  match alookup k l with
  | some _ => l
  | none => l ++ [(k, v)]

/-! ### fnmatch (stdlib collaborator used by mask_matches)

Python 2 fnmatch.fnmatch translates the pattern to a regular expression:
`*` becomes `.*`, `?` becomes `.`, `[...]` becomes a character class with the
usual bracket rules (leading `!` negates, a `]` right after the opening or
after `!` is a member, an unclosed `[` is a literal), every other character is
matched literally, and the whole name must be matched.  Since the regex is
compiled without DOTALL, `*` and `?` do not cross a newline, while a negated
class does match a newline.  The matcher below is fuelled so that it reduces
in the kernel; each step shrinks `pattern.length + name.length`, so the fuel
used by `fnmatch` is always sufficient (proved in `globMatchF_stable`). -/

/-- Split a character-class body at the first closing bracket. -/
def findClose : List Char → Option (List Char × List Char)
  | [] => none
  | c :: rest =>
    if c == ']' then some ([], rest)
    else (findClose rest).map (fun p => (c :: p.1, p.2))

/-- Scan for the body of a bracket expression, mirroring the index scan of
fnmatch.translate: a leading `!` and a `]` right after it (or right after the
opening bracket) belong to the body. -/
def classScan : List Char → Option (List Char × List Char)
  | [] => none
  | a :: rest =>
    if a = '!' then
      match rest with
      | b :: rest2 =>
        if b = ']' then (findClose rest2).map (fun p => ('!' :: ']' :: p.1, p.2))
        else (findClose rest).map (fun p => ('!' :: p.1, p.2))
      | [] => none
    else if a = ']' then (findClose rest).map (fun p => (']' :: p.1, p.2))
    else findClose (a :: rest)

/-- Members of a bracket expression, as closed character ranges; a single
character `c` is the range `c-c`, and a `-` that is first or last is literal. -/
def classRanges : List Char → List (Char × Char)
  | [] => []
  | a :: '-' :: b :: rest => (a, b) :: classRanges rest
  | a :: rest => (a, a) :: classRanges rest

/-- Membership of a character in a list of ranges. -/
def rangesMatch (ms : List (Char × Char)) (c : Char) : Bool :=
  ms.any (fun p => p.1 ≤ c && c ≤ p.2)

/-- Bracket-expression match, with leading `!` negation. -/
def classMatch (stuff : List Char) (c : Char) : Bool :=
  match stuff with
  | '!' :: rest => !(rangesMatch (classRanges rest) c)
  | rest => rangesMatch (classRanges rest) c

/-- Fuelled glob matcher over (pattern, name) character lists. -/
def globMatchF : Nat → List Char → List Char → Bool
  | 0, _, _ => false
  | _ + 1, [], name => name.isEmpty
  | f + 1, p :: ps, name =>
    if p = '*' then
      globMatchF f ps name ||
        (match name with
         | [] => false
         | c :: ns => !(c == '\n') && globMatchF f (p :: ps) ns)
    else if p = '?' then
      match name with
      | c :: ns => !(c == '\n') && globMatchF f ps ns
      | [] => false
    else if p = '[' then
      match classScan ps with
      | none =>
        match name with
        | c :: ns => c == '[' && globMatchF f ps ns
        | [] => false
      | some (stuff, rest) =>
        match name with
        | c :: ns => classMatch stuff c && globMatchF f rest ns
        | [] => false
    else
      match name with
      | c :: ns => p == c && globMatchF f ps ns
      | [] => false

/-- Modelled from the spec and the Python 2 stdlib: `fnmatch.fnmatch(name, pat)`
on a POSIX platform, where normcase is the identity. -/
def fnmatch (name pat : String) : Bool :=
  globMatchF (pat.toList.length + name.toList.length + 1) pat.toList name.toList

theorem findClose_length :
    ∀ (s a b : List Char), findClose s = some (a, b) → b.length < s.length := by
  intro s
  induction s with
  | nil =>
    intro a b h
    simp [findClose] at h
  | cons c t ih =>
    intro a b h
    unfold findClose at h
    by_cases hc : (c == ']') = true
    · rw [if_pos hc] at h
      simp only [Option.some.injEq, Prod.mk.injEq] at h
      rw [← h.2]
      simp only [List.length_cons]
      omega
    · rw [if_neg hc] at h
      cases h2 : findClose t with
      | none =>
        rw [h2] at h
        simp at h
      | some p =>
        rw [h2] at h
        simp only [Option.map_some', Option.some.injEq, Prod.mk.injEq] at h
        have hlt := ih p.1 p.2 (by rw [h2])
        rw [← h.2]
        simp only [List.length_cons]
        omega

theorem classScan_cons2 (a b : Char) (t2 : List Char) :
    classScan (a :: b :: t2)
      = (if a = '!' then
          (if b = ']' then (findClose t2).map (fun p => ('!' :: ']' :: p.1, p.2))
           else (findClose (b :: t2)).map (fun p => ('!' :: p.1, p.2)))
        else if a = ']' then (findClose (b :: t2)).map (fun p => (']' :: p.1, p.2))
        else findClose (a :: b :: t2)) := rfl

theorem classScan_one (a : Char) :
    classScan [a]
      = (if a = '!' then none
        else if a = ']' then (findClose []).map (fun p => (']' :: p.1, p.2))
        else findClose [a]) := rfl

theorem classScan_length (s stuff rest : List Char) (h : classScan s = some (stuff, rest)) :
    rest.length < s.length := by
  cases s with
  | nil => simp [classScan] at h
  | cons a t =>
    cases t with
    | nil =>
      rw [classScan_one] at h
      by_cases ha : a = '!'
      · rw [if_pos ha] at h
        simp at h
      · rw [if_neg ha] at h
        by_cases ha2 : a = ']'
        · rw [if_pos ha2] at h
          simp [findClose] at h
        · rw [if_neg ha2] at h
          exact findClose_length [a] stuff rest h
    | cons b t2 =>
      rw [classScan_cons2] at h
      by_cases ha : a = '!'
      · rw [if_pos ha] at h
        by_cases hb : b = ']'
        · rw [if_pos hb] at h
          cases h2 : findClose t2 with
          | none =>
            rw [h2] at h
            simp at h
          | some p =>
            rw [h2] at h
            simp only [Option.map_some', Option.some.injEq, Prod.mk.injEq] at h
            have hlt := findClose_length t2 p.1 p.2 (by rw [h2])
            rw [← h.2]
            simp only [List.length_cons]
            omega
        · rw [if_neg hb] at h
          cases h2 : findClose (b :: t2) with
          | none =>
            rw [h2] at h
            simp at h
          | some p =>
            rw [h2] at h
            simp only [Option.map_some', Option.some.injEq, Prod.mk.injEq] at h
            have hlt := findClose_length (b :: t2) p.1 p.2 (by rw [h2])
            rw [← h.2]
            simp only [List.length_cons] at hlt ⊢
            omega
      · rw [if_neg ha] at h
        by_cases ha2 : a = ']'
        · rw [if_pos ha2] at h
          cases h2 : findClose (b :: t2) with
          | none =>
            rw [h2] at h
            simp at h
          | some p =>
            rw [h2] at h
            simp only [Option.map_some', Option.some.injEq, Prod.mk.injEq] at h
            have hlt := findClose_length (b :: t2) p.1 p.2 (by rw [h2])
            rw [← h.2]
            simp only [List.length_cons] at hlt ⊢
            omega
        · rw [if_neg ha2] at h
          exact findClose_length (a :: b :: t2) stuff rest h

theorem globMatchF_star (f : Nat) (ps name : List Char) :
    globMatchF (f + 1) ('*' :: ps) name
      = (globMatchF f ps name ||
          (match name with
           | [] => false
           | c :: ns => !(c == '\n') && globMatchF f ('*' :: ps) ns)) := rfl

theorem globMatchF_qmark (f : Nat) (ps name : List Char) :
    globMatchF (f + 1) ('?' :: ps) name
      = (match name with
         | c :: ns => !(c == '\n') && globMatchF f ps ns
         | [] => false) := rfl

theorem globMatchF_cls (f : Nat) (ps name : List Char) :
    globMatchF (f + 1) ('[' :: ps) name
      = (match classScan ps with
         | none =>
           match name with
           | c :: ns => c == '[' && globMatchF f ps ns
           | [] => false
         | some (stuff, rest) =>
           match name with
           | c :: ns => classMatch stuff c && globMatchF f rest ns
           | [] => false) := rfl

theorem globMatchF_lit (f : Nat) (p : Char) (ps name : List Char)
    (h1 : p ≠ '*') (h2 : p ≠ '?') (h3 : p ≠ '[') :
    globMatchF (f + 1) (p :: ps) name
      = (match name with
         | c :: ns => p == c && globMatchF f ps ns
         | [] => false) := by
  show (if p = '*' then
      globMatchF f ps name ||
        (match name with
         | [] => false
         | c :: ns => !(c == '\n') && globMatchF f (p :: ps) ns)
    else if p = '?' then
      match name with
      | c :: ns => !(c == '\n') && globMatchF f ps ns
      | [] => false
    else if p = '[' then
      match classScan ps with
      | none =>
        match name with
        | c :: ns => c == '[' && globMatchF f ps ns
        | [] => false
      | some (stuff, rest) =>
        match name with
        | c :: ns => classMatch stuff c && globMatchF f rest ns
        | [] => false
    else
      match name with
      | c :: ns => p == c && globMatchF f ps ns
      | [] => false) = _
  rw [if_neg h1, if_neg h2, if_neg h3]

/-- The fuelled glob matcher is fuel-independent above the natural bound
`pattern length + name length`: the fuel used by fnmatch is always enough. -/
theorem globMatchF_stable :
    ∀ (f : Nat) (pat name : List Char) (g : Nat),
      pat.length + name.length < f → pat.length + name.length < g →
      globMatchF f pat name = globMatchF g pat name := by
  intro f
  induction f using Nat.strong_induction_on with
  | _ f ih =>
    intro pat name g hf hg
    cases f with
    | zero => omega
    | succ f2 =>
      cases g with
      | zero => omega
      | succ g2 =>
        cases pat with
        | nil => rfl
        | cons p ps =>
          by_cases h1 : p = '*'
          · subst h1
            rw [globMatchF_star, globMatchF_star]
            cases name with
            | nil =>
              have e1 := ih f2 (by omega) ps [] g2
                (by simp only [List.length_cons, List.length_nil] at hf ⊢; omega)
                (by simp only [List.length_cons, List.length_nil] at hg ⊢; omega)
              simp only [e1]
            | cons c ns =>
              have e1 := ih f2 (by omega) ps (c :: ns) g2
                (by simp only [List.length_cons] at hf ⊢; omega)
                (by simp only [List.length_cons] at hg ⊢; omega)
              have e2 := ih f2 (by omega) ('*' :: ps) ns g2
                (by simp only [List.length_cons] at hf ⊢; omega)
                (by simp only [List.length_cons] at hg ⊢; omega)
              simp only [e1, e2]
          · by_cases h2 : p = '?'
            · subst h2
              rw [globMatchF_qmark, globMatchF_qmark]
              cases name with
              | nil => rfl
              | cons c ns =>
                have e1 := ih f2 (by omega) ps ns g2
                  (by simp only [List.length_cons] at hf ⊢; omega)
                  (by simp only [List.length_cons] at hg ⊢; omega)
                simp only [e1]
            · by_cases h3 : p = '['
              · subst h3
                rw [globMatchF_cls, globMatchF_cls]
                cases hcs : classScan ps with
                | none =>
                  cases name with
                  | nil => rfl
                  | cons c ns =>
                    have e1 := ih f2 (by omega) ps ns g2
                      (by simp only [List.length_cons] at hf ⊢; omega)
                      (by simp only [List.length_cons] at hg ⊢; omega)
                    simp only [e1]
                | some pr =>
                  rcases pr with ⟨stuff, rest⟩
                  have hr := classScan_length ps stuff rest hcs
                  cases name with
                  | nil => rfl
                  | cons c ns =>
                    have e1 := ih f2 (by omega) rest ns g2
                      (by simp only [List.length_cons] at hf ⊢; omega)
                      (by simp only [List.length_cons] at hg ⊢; omega)
                    simp only [e1]
              · rw [globMatchF_lit f2 p ps name h1 h2 h3,
                  globMatchF_lit g2 p ps name h1 h2 h3]
                cases name with
                | nil => rfl
                | cons c ns =>
                  have e1 := ih f2 (by omega) ps ns g2
                    (by simp only [List.length_cons] at hf ⊢; omega)
                    (by simp only [List.length_cons] at hg ⊢; omega)
                  simp only [e1]

/-! ### splituser and mask_matches (src/cassbot.py lines 375-387) -/

/-- Split a list at the first occurrence of a separator (Python split(sep, 1)). -/
def splitOnce (sep : Char) : List Char → Option (List Char × List Char)
  | [] => none
  | c :: rest =>
    if c == sep then some ([], rest)
    else (splitOnce sep rest).map (fun p => (c :: p.1, p.2))

/-- splituser: `user.split('!', 1)`, then the remainder split at the first `@`.
With no `!` the whole string is the identity; with `!` but no `@` the part
after `!` is returned as the host part (third component). -/
def splituser (u : String) : String × String × String :=
  match splitOnce '!' u.toList with
  | none => (u, "", "")
  | some (nick, rest) =>
    match splitOnce '@' rest with
    | none => (String.mk nick, "", String.mk rest)
    | some (l, h) => (String.mk nick, String.mk l, String.mk h)

/-- mask_matches: split both strings and fnmatch every user part against the
corresponding mask part. -/
def mask_matches (mask user : String) : Bool :=
  match splituser mask, splituser user with
  | (m1, m2, m3), (u1, u2, u3) => fnmatch u1 m1 && fnmatch u2 m2 && fnmatch u3 m3

/-- An empty fnmatch pattern matches only the empty string. -/
theorem fnmatch_empty_pat (s : String) : fnmatch s "" = true ↔ s = "" := by
  cases s with
  | mk data =>
    cases data with
    | nil => simp [fnmatch, globMatchF]
    | cons c cs =>
      constructor
      · intro h
        simp [fnmatch, globMatchF] at h
      · intro h
        exact absurd (congrArg String.toList h) (by simp [String.toList])

/-- A mask with no `!` splits into the whole mask and two empty parts. -/
theorem splituser_no_bang (mask : String) (h : splitOnce '!' mask.toList = none) :
    splituser mask = (mask, "", "") := by
  unfold splituser
  rw [h]

/-- Claim C1 (counterexample): the mask `boss` consists of only an identity
part which wildcard-matches the identity part of `boss!x@y`, yet mask_matches
rejects the principal, because the missing mask parts become empty patterns
that do not match the non-empty local and host parts. -/
theorem mask_matches_missing_part_cex :
    mask_matches "boss" "boss!x@y" = false ∧ fnmatch "boss" "boss" = true := by
  decide

/-- Claim C1 (amended): mask_matches is the conjunction of part-wise fnmatch
checks after splituser, where a missing part on either side is the empty
string; consequently a mask consisting of only an identity part matches a
principal iff the identity wildcard-matches and the principal has empty local
and host parts (a missing mask part does NOT match anything). -/
theorem mask_matches_partwise (mask user : String) :
    (mask_matches mask user = true ↔
      (fnmatch (splituser user).1 (splituser mask).1 = true ∧
       fnmatch (splituser user).2.1 (splituser mask).2.1 = true ∧
       fnmatch (splituser user).2.2 (splituser mask).2.2 = true)) ∧
    (splitOnce '!' mask.toList = none →
      (mask_matches mask user = true ↔
        (fnmatch (splituser user).1 mask = true ∧
         (splituser user).2.1 = "" ∧ (splituser user).2.2 = ""))) := by
  have hmain : ∀ m u : String, mask_matches m u = true ↔
      (fnmatch (splituser u).1 (splituser m).1 = true ∧
       fnmatch (splituser u).2.1 (splituser m).2.1 = true ∧
       fnmatch (splituser u).2.2 (splituser m).2.2 = true) := by
    intro m u
    rcases hm : splituser m with ⟨m1, m2, m3⟩
    rcases hu : splituser u with ⟨u1, u2, u3⟩
    simp [mask_matches, hm, hu, Bool.and_eq_true, and_assoc]
  refine ⟨hmain mask user, ?_⟩
  intro h
  rw [hmain mask user, splituser_no_bang mask h]
  simp [fnmatch_empty_pat]

/-- Concrete use of the amended C1 theorem: a bare-identity mask does match a
bare-identity principal. -/
theorem mask_matches_partwise_w : mask_matches "boss" "boss" = true := by
  have h := (mask_matches_partwise "boss" "boss").2 (by decide)
  revert h
  decide

/-! ### AuthMap (src/cassbot.py lines 390-423)

`memberships` maps a privilege name to its holders.  addPriv stores a Python
set; removePriv rebuilds the value as a Python LIST (a list comprehension), so
the value type of an entry changes after the first revoke.  Both collection
kinds are kept distinct because set.add does not exist on a list: a later
addPriv on such an entry raises AttributeError. -/

/-- A holders collection: either a Python set or a Python list. -/
inductive Holders
  | pyset (l : List String)
  | pylist (l : List String)
deriving DecidableEq

/-- The underlying elements of a holders collection. -/
def Holders.toL : Holders → List String
  | .pyset l => l
  | .pylist l => l

/-- The memberships dict of an AuthMap. -/
abbrev AuthMap := List (String × Holders)

/-- Python exception classes relevant to the embedded code paths. -/
inductive PyExc
  | ioError
  | valueError
  | unpicklingError
  | eofError
  | attributeError
  | indexError
deriving DecidableEq

/-- addPriv: `self.memberships.setdefault(privname, set()).add(mask)`.
On a missing key a fresh one-element set is stored; on a set the mask is added
(set add, so no duplicate); on a list (left behind by removePriv) the
attribute access `.add` raises AttributeError. -/
def addPriv (mask privname : String) (am : AuthMap) : Except PyExc AuthMap :=
  match alookup privname am with
  | none => .ok (am ++ [(privname, .pyset [mask])])
  | some (.pyset l) =>
      .ok (aupdate privname (.pyset (if l.contains mask then l else l ++ [mask])) am)
  | some (.pylist _) => .error .attributeError

/-- removePriv: filters the current holders and stores the result, which is a
Python list, under the privilege name (creating the key when absent). -/
def removePriv (mask privname : String) (am : AuthMap) : AuthMap :=
  let glist := match alookup privname am with
               | some h => h.toL
               | none => []
  aupdate privname (.pylist (glist.filter (fun x => !(x == mask)))) am

/-- whoHas: the holders of a privilege, or the empty collection. -/
def whoHas (privname : String) (am : AuthMap) : List String :=
  match alookup privname am with
  | some h => h.toL
  | none => []

/-- Sequential scan of the members list in userHas: skip members already in
the skip set, recurse on the rest, short-circuit on the first true. -/
def userHasListGo (recurse : String → Option Bool) (skip : List String) :
    List String → Option Bool
  | [] => some false
  | m :: rest =>
    if skip.contains m then userHasListGo recurse skip rest
    else
      match recurse m with
      | none => none
      | some true => some true
      | some false => userHasListGo recurse skip rest

/-- userHas, with an explicit fuel for the recursion depth: first try a direct
mask match against every member, then recurse into every member not in the
skip set, passing `skip | set(members)` down.  `none` marks fuel exhaustion;
the theorem below shows enough fuel always exists. -/
def userHasFuel (am : AuthMap) (user : String) : Nat → String → List String → Option Bool
  | 0, _, _ => none
  | f + 1, privname, skip =>
    let members := whoHas privname am
    if members.any (fun mask => mask_matches mask user) then some true
    else userHasListGo (fun m => userHasFuel am user f m (skip ++ members)) skip members

/-- Every mask occurring in any holders collection of the map. -/
def allMasks (am : AuthMap) : List String :=
  am.foldr (fun e acc => e.2.toL ++ acc) []

/-- How many masks of the map are not yet in the skip set; the termination
measure of userHas. -/
def unseenCount (am : AuthMap) (skip : List String) : Nat :=
  ((allMasks am).filter (fun m => !(skip.contains m))).length

theorem contains_iff_mem (l : List String) (x : String) : l.contains x = true ↔ x ∈ l := by
  induction l with
  | nil => simp
  | cons a rest ih => simp [List.contains_cons, ih]

theorem whoHas_subset_allMasks (am : AuthMap) (p x : String)
    (hx : x ∈ whoHas p am) : x ∈ allMasks am := by
  induction am with
  | nil => simp [whoHas, alookup] at hx
  | cons e rest ih =>
    rcases e with ⟨k, h⟩
    simp only [whoHas, alookup] at hx
    simp only [allMasks, List.foldr_cons, List.mem_append]
    by_cases hk : k == p
    · rw [if_pos hk] at hx
      exact Or.inl hx
    · rw [if_neg hk] at hx
      exact Or.inr (ih hx)

theorem filter_length_le (l : List String) (p q : String → Bool)
    (himp : ∀ x, q x = true → p x = true) :
    (l.filter q).length ≤ (l.filter p).length := by
  induction l with
  | nil => simp
  | cons a rest ih =>
    by_cases hq : q a = true
    · rw [List.filter_cons_of_pos hq, List.filter_cons_of_pos (himp a hq)]
      exact Nat.succ_le_succ ih
    · rw [List.filter_cons_of_neg (by simp [hq])]
      by_cases hp : p a = true
      · rw [List.filter_cons_of_pos hp]
        exact Nat.le_succ_of_le ih
      · rw [List.filter_cons_of_neg (by simp [hp])]
        exact ih

theorem filter_length_lt (l : List String) (p q : String → Bool)
    (himp : ∀ x, q x = true → p x = true)
    (m : String) (hm : m ∈ l) (hpm : p m = true) (hqm : q m = false) :
    (l.filter q).length < (l.filter p).length := by
  induction l with
  | nil => simp at hm
  | cons a rest ih =>
    rcases List.mem_cons.mp hm with rfl | hmr
    · rw [List.filter_cons_of_pos hpm, List.filter_cons_of_neg (by simp [hqm])]
      exact Nat.lt_succ_of_le (filter_length_le rest p q himp)
    · by_cases hq : q a = true
      · rw [List.filter_cons_of_pos hq, List.filter_cons_of_pos (himp a hq)]
        exact Nat.succ_lt_succ (ih hmr)
      · rw [List.filter_cons_of_neg (by simp [hq])]
        by_cases hp : p a = true
        · rw [List.filter_cons_of_pos hp]
          exact Nat.lt_succ_of_lt (ih hmr)
        · rw [List.filter_cons_of_neg (by simp [hp])]
          exact ih hmr

theorem unseenCount_append_lt (am : AuthMap) (skip members : List String)
    (m : String) (hmem : m ∈ members) (hall : m ∈ allMasks am)
    (hskip : skip.contains m = false) :
    unseenCount am (skip ++ members) < unseenCount am skip := by
  unfold unseenCount
  refine filter_length_lt (allMasks am)
    (fun x => !(skip.contains x)) (fun x => !((skip ++ members).contains x))
    ?_ m hall ?_ ?_
  · intro x hx
    simp only [Bool.not_eq_true'] at hx ⊢
    cases hc : skip.contains x with
    | false => rfl
    | true =>
      have hx2 : (skip ++ members).contains x = true :=
        (contains_iff_mem _ _).mpr (List.mem_append.mpr (Or.inl ((contains_iff_mem _ _).mp hc)))
      rw [hx] at hx2
      exact Bool.noConfusion hx2
  · simp only [Bool.not_eq_true']
    exact hskip
  · have hm2 : (skip ++ members).contains m = true :=
      (contains_iff_mem _ _).mpr (List.mem_append.mpr (Or.inr hmem))
    simp only [Bool.not_eq_false']
    exact hm2

/-- Claim C2: userHas terminates on every privilege map, including maps whose
delegation edges form a cycle: whenever the fuel exceeds the number of masks
not yet in the skip set, the fuelled recursion completes with a boolean (it
never runs out of fuel and never fails). -/
theorem userHas_terminates (am : AuthMap) (user privname : String) (skip : List String)
    (fuel : Nat) (h : unseenCount am skip < fuel) :
    ∃ b, userHasFuel am user fuel privname skip = some b := by
  induction fuel using Nat.strong_induction_on generalizing privname skip with
  | _ fuel ih =>
    cases fuel with
    | zero => exact absurd h (Nat.not_lt_zero _)
    | succ f =>
      by_cases hmatch : (whoHas privname am).any (fun mask => mask_matches mask user) = true
      · exact ⟨true, by simp [userHasFuel, hmatch]⟩
      · have hlist : ∀ l : List String, (∀ x ∈ l, x ∈ whoHas privname am) →
            ∃ b, userHasListGo
              (fun m => userHasFuel am user f m (skip ++ whoHas privname am)) skip l
              = some b := by
          intro l
          induction l with
          | nil => exact fun _ => ⟨false, rfl⟩
          | cons m rest ihl =>
            intro hsub
            by_cases hskip : m ∈ skip
            · rcases ihl (fun x hx => hsub x (List.mem_cons_of_mem m hx)) with ⟨b, hb⟩
              exact ⟨b, by simp [userHasListGo, hskip, hb]⟩
            · have hmem : m ∈ whoHas privname am := hsub m (List.mem_cons_self m rest)
              have hcf : skip.contains m = false := by
                cases hc : skip.contains m with
                | false => rfl
                | true => exact absurd ((contains_iff_mem _ _).mp hc) hskip
              have hdec : unseenCount am (skip ++ whoHas privname am) < f := by
                have hlt := unseenCount_append_lt am skip (whoHas privname am) m hmem
                  (whoHas_subset_allMasks am privname m hmem) hcf
                omega
              rcases ih f (Nat.lt_succ_self f) m (skip ++ whoHas privname am) hdec with ⟨b0, hb0⟩
              cases b0 with
              | true => exact ⟨true, by simp [userHasListGo, hskip, hb0]⟩
              | false =>
                rcases ihl (fun x hx => hsub x (List.mem_cons_of_mem m hx)) with ⟨b, hb⟩
                exact ⟨b, by simp [userHasListGo, hskip, hb0, hb]⟩
        rcases hlist (whoHas privname am) (fun x hx => hx) with ⟨b, hb⟩
        exact ⟨b, by simp [userHasFuel, hmatch, hb]⟩

/-- A two-privilege delegation cycle: opA is granted to name opB and opB to
name opA. -/
def cycleAuth : AuthMap := [("opA", Holders.pyset ["opB"]), ("opB", Holders.pyset ["opA"])]

/-- Concrete run of the C2 theorem on the cyclic map: resolution terminates
and returns false for an unrelated principal. -/
theorem userHas_terminates_w :
    (∃ b, userHasFuel cycleAuth "boss!x@y" 3 "opA" [] = some b) ∧
    userHasFuel cycleAuth "boss!x@y" 3 "opA" [] = some false :=
  ⟨userHas_terminates cycleAuth "boss!x@y" "opA" [] 3 (by decide), by decide⟩

/-- Claim C4 (code evidence): grant, then revoke, then a second grant on the
same privilege.  The revoke rebuilds the holders as a Python list, so the
second grant raises AttributeError instead of adding the mask. -/
theorem addPriv_after_removePriv_fails :
    addPriv "m" "P" [] = .ok [("P", Holders.pyset ["m"])] ∧
    removePriv "m" "P" [("P", Holders.pyset ["m"])] = [("P", Holders.pylist [])] ∧
    addPriv "m2" "P" [("P", Holders.pylist [])] = .error .attributeError :=
  ⟨rfl, rfl, rfl⟩

/-! ### Plugin data (IBotPluginInstance contract)

Plugin code is an external collaborator; a plugin class is embedded as data:
its name, the event names of interestingMethods, the verbs of
implementedCommands, the command methods it really has (with the outcome of
invoking each), and what a fresh saveState of it returns. -/

/-- An opaque pickleable plugin state value, with its Python truthiness. -/
inductive PObj
  | mk (truthy : Bool) (tag : Nat)
deriving DecidableEq

/-- Python truthiness of a state value. -/
def PObj.isTruthy : PObj → Bool
  | .mk t _ => t

/-- Outcome of invoking one plugin handler: returns normally or raises. -/
inductive HandlerResult
  | hok
  | hraises
deriving DecidableEq

/-- Whether a handler outcome is an exception. -/
def isRaise : HandlerResult → Bool
  | .hraises => true
  | .hok => false

/-- A discoverable plugin class, as data. -/
structure PClass where
  cname : String
  interests : List String
  cmds : List String
  cmdMethods : List (String × HandlerResult)
  initSave : Option PObj
deriving DecidableEq

/-- A live plugin instance: its class, what its saveState currently returns,
and the value (if any) that was handed to it through loadState. -/
structure Instance where
  icls : PClass
  saveVal : Option PObj
  loadedVal : Option PObj
deriving DecidableEq

/-- A pluginmap entry: the sentinel enabled_but_not_found or an instance. -/
inductive PEntry
  | marker
  | inst (i : Instance)
deriving DecidableEq

/-! ### Event fan-out wrapper (src/cassbot.py lines 225-239, make_watch_wrapper)

The wrapper calls the real method first, then yields every watcher plugin in
order, catching and logging any exception, and finally returns the real
result.  Dispatch is recorded as a trace of events. -/

/-- Observable events of one wrapped dispatch. -/
inductive DispEv
  | realDone
  | pluginCalled (n : String)
  | errLogged (n : String) (mname : String)
deriving DecidableEq

/-- The watcher loop: each plugin is invoked; a raising plugin additionally
produces a log entry, and iteration always continues. -/
def runWatchersT (mname : String) : List (String × HandlerResult) → List DispEv
  | [] => []
  | (n, r) :: rest =>
    match r with
    | .hok => .pluginCalled n :: runWatchersT mname rest
    | .hraises => .pluginCalled n :: .errLogged n mname :: runWatchersT mname rest

/-- make_watch_wrapper applied to arguments: the real method result together
with the dispatch trace. -/
def watch_wrapper {α : Type} (mname : String) (realresult : α)
    (watchers : List (String × HandlerResult)) : α × List DispEv :=
  (realresult, .realDone :: runWatchersT mname watchers)

/-- The plugin name of an invocation event. -/
def pluginOf : DispEv → Option String
  | .pluginCalled n => some n
  | _ => none

/-- The plugin name of an error-log event. -/
def logOf : DispEv → Option String
  | .errLogged n _ => some n
  | _ => none

theorem runWatchersT_plugins (mname : String) (ws : List (String × HandlerResult)) :
    (runWatchersT mname ws).filterMap pluginOf = ws.map Prod.fst := by
  induction ws with
  | nil => rfl
  | cons w rest ih =>
    rcases w with ⟨n, r⟩
    cases r <;> simp [runWatchersT, pluginOf, ih]

theorem runWatchersT_logs (mname : String) (ws : List (String × HandlerResult)) :
    (runWatchersT mname ws).filterMap logOf = (ws.filter (fun w => isRaise w.2)).map Prod.fst := by
  induction ws with
  | nil => rfl
  | cons w rest ih =>
    rcases w with ⟨n, r⟩
    cases r <;> simp [runWatchersT, logOf, isRaise, ih]

/-- Claim C5: the wrapped call returns the real method result, the default
handling event comes first in the trace, every watcher plugin is invoked
exactly once in list order regardless of raising handlers (so a raising
plugin never prevents later plugins from running), failing handlers are
logged with plugin and event name, and the wrapper itself never raises (it is
a total function into a result, not an Except). -/
theorem watch_wrapper_isolates {α : Type} (mname : String) (rr : α)
    (ws : List (String × HandlerResult)) :
    (watch_wrapper mname rr ws).1 = rr ∧
    (watch_wrapper mname rr ws).2.head? = some .realDone ∧
    (watch_wrapper mname rr ws).2.filterMap pluginOf = ws.map Prod.fst ∧
    (watch_wrapper mname rr ws).2.filterMap logOf =
      (ws.filter (fun w => isRaise w.2)).map Prod.fst := by
  refine ⟨rfl, rfl, ?_, ?_⟩
  · simp [watch_wrapper, pluginOf, runWatchersT_plugins]
  · simp [watch_wrapper, logOf, runWatchersT_logs]

/-! ### Addressed replies and command routing
(src/cassbot.py lines 250-280, dispatch_command / address_msg /
command_not_found) -/

/-- An outbound message: (destination, text). -/
abbrev Sent := String × String

/-- Python split on a single character (str.split(sep)); an empty input gives
one empty field, like Python. -/
def splitOnChar (sep : Char) : List Char → List (List Char)
  | [] => [[]]
  | c :: rest =>
    if c == sep then [] :: splitOnChar sep rest
    else
      match splitOnChar sep rest with
      | [] => [[c]]
      | g :: gs => (c :: g) :: gs

/-- str.split of a string at newlines, as in address_msg. -/
def pySplitNL (s : String) : List String :=
  (splitOnChar '\n' s.toList).map String.mk

/-- The nick part of a principal: everything before the first `!`. -/
def stripNick (user : String) : String :=
  match splitOnce '!' user.toList with
  | some (a, _) => String.mk a
  | none => user

/-- address_msg: strip the user to its nick; a private message is answered to
the user without prefix, a channel message is answered to the channel with a
`nick: ` prefix; the text is split at newlines into separate sends. -/
def address_msg (nickname user channel msg : String) : List Sent :=
  let u := stripNick user
  if channel == nickname then
    (pySplitNL msg).map (fun line => (u, line))
  else
    (pySplitNL msg).map (fun line => (channel, u ++ ": " ++ line))

/-- A single-quote character, as used by repr of a plain string. -/
def sq : String := String.singleton (Char.ofNat 39)

/-- The command_not_found text: `Sorry, I do not understand %r. :(` with %r
being the repr of the verb (single-quoted). -/
def apology (cmd : String) : String :=
  "Sorry, I don" ++ sq ++ "t understand " ++ sq ++ cmd ++ sq ++ ". :("

/-- command_not_found sends the apology through address_msg. -/
def command_not_found (nickname user channel cmd : String) : List Sent :=
  address_msg nickname user channel (apology cmd)

/-- Python str.lower restricted to ASCII, which is what the Python 2 str
lower() of a verb does. -/
def pyLower (s : String) : String := String.mk (s.toList.map Char.toLower)

/-- The handlers dispatch_command will actually call for a verb: the plugins
indexed under the lowercased verb that really have the command method
(a missing method is skipped via the AttributeError branch). -/
def availableHandlers (cmap : List (String × List Instance)) (cmd : String) :
    List (String × HandlerResult) :=
  ((alookup (pyLower cmd) cmap).getD []).filterMap
    (fun p => (alookup (pyLower cmd) p.icls.cmdMethods).map (fun r => (p.icls.cname, r)))

/-- dispatch_command: lowercase the verb, call every indexed plugin that has
the method (each failure only logged via an errback), and send the
command_not_found reply exactly when no handler was called.  Returns the
messages sent by the fallback path and the error-log entries. -/
def dispatch_command (cmap : List (String × List Instance))
    (nickname user channel cmd : String) : List Sent × List String :=
  match availableHandlers cmap cmd with
  | [] => (command_not_found nickname user channel (pyLower cmd), [])
  | h :: t =>
    ([], (h :: t).filterMap (fun pr =>
      match pr.2 with
      | .hraises =>
        some ("Exception in plugin " ++ pr.1 ++ " while in command_" ++ pyLower cmd)
      | .hok => none))

theorem splitOnChar_no_sep (sep : Char) (l : List Char) (h : ∀ c ∈ l, c ≠ sep) :
    splitOnChar sep l = [l] := by
  induction l with
  | nil => rfl
  | cons c rest ih =>
    have hc : (c == sep) = false := by
      cases hcc : c == sep with
      | false => rfl
      | true => exact absurd (beq_iff_eq.mp hcc) (h c (List.mem_cons_self c rest))
    simp only [splitOnChar, hc, Bool.false_eq_true, if_false,
      ih (fun x hx => h x (List.mem_cons_of_mem c hx))]

theorem pySplitNL_no_nl (s : String) (h : ∀ c ∈ s.toList, c ≠ '\n') :
    pySplitNL s = [s] := by
  unfold pySplitNL
  rw [splitOnChar_no_sep '\n' s.toList h]
  cases s with
  | mk data => rfl

theorem apology_no_nl (s : String) (h : ∀ c ∈ s.toList, c ≠ '\n') :
    ∀ c ∈ (apology s).toList, c ≠ '\n' := by
  have hfix1 : ∀ c ∈ ("Sorry, I don" : String).toList, c ≠ '\n' := by decide
  have hsq : ∀ c ∈ sq.toList, c ≠ '\n' := by decide
  have hfix2 : ∀ c ∈ ("t understand " : String).toList, c ≠ '\n' := by decide
  have hfix3 : ∀ c ∈ (". :(" : String).toList, c ≠ '\n' := by decide
  intro c hc
  unfold apology at hc
  simp only [String.toList, String.data_append] at hc
  simp only [List.mem_append] at hc
  rcases hc with ((((((h1 | h1) | h1) | h1) | h1) | h1) | h1)
  exacts [hfix1 c h1, hsq c h1, hfix2 c h1, hsq c h1, h c h1, hsq c h1, hfix3 c h1]

/-- Claim C7: when no plugin provides a handler for the verb, dispatch sends
exactly one addressed reply, the apology referencing the (lowercased) verb;
when at least one handler exists, no fallback reply is sent even if every
handler raises. -/
theorem dispatch_command_fallback (cmap : List (String × List Instance))
    (nickname user channel cmd : String)
    (hnl : ∀ c ∈ (pyLower cmd).toList, c ≠ '\n') :
    (availableHandlers cmap cmd = [] →
      (dispatch_command cmap nickname user channel cmd).1 =
        [if channel == nickname
         then (stripNick user, apology (pyLower cmd))
         else (channel, stripNick user ++ ": " ++ apology (pyLower cmd))]) ∧
    (availableHandlers cmap cmd ≠ [] →
      (dispatch_command cmap nickname user channel cmd).1 = []) := by
  constructor
  · intro hz
    have hone : pySplitNL (apology (pyLower cmd)) = [apology (pyLower cmd)] :=
      pySplitNL_no_nl _ (apology_no_nl _ hnl)
    simp only [dispatch_command, hz, command_not_found, address_msg, hone, List.map_cons,
      List.map_nil]
    by_cases hch : (channel == nickname) = true
    · simp [hch]
    · simp [hch]
  · intro hnz
    rcases hh : availableHandlers cmap cmd with _ | ⟨h, t⟩
    · exact absurd hh hnz
    · simp [dispatch_command, hh]

/-- A plugin whose hello handler raises. -/
def boomInstance : Instance :=
  { icls := { cname := "Boom", interests := [], cmds := ["hello"],
              cmdMethods := [("hello", .hraises)], initSave := none },
    saveVal := none, loadedVal := none }

/-- Concrete runs of the C7 theorem: verb bogus with no handlers yields
exactly the one apology reply; verb hello with one raising handler yields no
fallback reply. -/
theorem dispatch_command_fallback_w :
    (dispatch_command [] "cassbot" "alice!u@h" "#chan" "bogus").1 =
      [("#chan", "alice: " ++ apology "bogus")] ∧
    (dispatch_command [("hello", [boomInstance])] "cassbot" "alice!u@h" "#chan" "hello").1
      = [] := by
  constructor
  · have h := (dispatch_command_fallback [] "cassbot" "alice!u@h" "#chan" "bogus"
      (by decide)).1 rfl
    rw [h]
    rfl
  · exact (dispatch_command_fallback [("hello", [boomInstance])] "cassbot" "alice!u@h"
      "#chan" "hello" (by decide)).2 (by decide)

/-! ### shlex.split and privmsg (src/cassbot.py lines 296-308)

shlex.split is a stdlib collaborator, modelled from its documented POSIX
behaviour: whitespace-separated tokens, single quotes literal, double quotes
with backslash escaping only the quote and the backslash, backslash outside
quotes escaping the next character; an unclosed quote or a trailing escape
raises ValueError.  privmsg recognises a command string (private message,
nickname-prefixed message, or configured command prefix), strips it,
tokenizes it, and takes the FIRST token as the verb with no emptiness or
error check. -/

/-- Prefix test over character lists (str.startswith). -/
def listPrefix : List Char → List Char → Bool
  | [], _ => true
  | _ :: _, [] => false
  | p :: ps, c :: cs => p == c && listPrefix ps cs

/-- str.startswith. -/
def pyStartsWith (s pre : String) : Bool := listPrefix pre.toList s.toList

/-- str slicing from a character index (message[n:]). -/
def pyDrop (s : String) (n : Nat) : String := String.mk (s.toList.drop n)

/-- The characters stripped by str.strip(). -/
def isPySpace (c : Char) : Bool :=
  c == ' ' || c == '\t' || c == '\n' || c == '\r' || c == '\x0b' || c == '\x0c'

/-- str.strip(): drop whitespace from both ends. -/
def pyStrip (s : String) : String :=
  String.mk (((s.toList.dropWhile isPySpace).reverse.dropWhile isPySpace).reverse)

/-- The whitespace characters of shlex. -/
def isShWhite (c : Char) : Bool :=
  c == ' ' || c == '\t' || c == '\r' || c == '\n'

/-- The single-quote character. -/
def sqChar : Char := Char.ofNat 39

/-- Tokenizer mode: outside a token feature, inside single quotes, inside
double quotes, after an escape outside quotes, after an escape in double
quotes. -/
inductive ShMode
  | norm
  | squote
  | dquote
  | escN
  | escD
deriving DecidableEq

/-- One pass of the shlex state machine over the remaining characters,
carrying the current mode, the reversed accumulated token, whether a token is
open (so that an empty quoted string still yields a token), and the tokens
already produced. -/
def shlexRun : List Char → ShMode → List Char → Bool → List String →
    Except PyExc (List String)
  | [], mode, acc, inTok, toks =>
    match mode with
    | .norm => .ok (toks ++ (if inTok then [String.mk acc.reverse] else []))
    | _ => .error .valueError
  | c :: rest, mode, acc, inTok, toks =>
    match mode with
    | .norm =>
      if isShWhite c then
        if inTok then shlexRun rest .norm [] false (toks ++ [String.mk acc.reverse])
        else shlexRun rest .norm [] false toks
      else if c == sqChar then shlexRun rest .squote acc true toks
      else if c == '"' then shlexRun rest .dquote acc true toks
      else if c == '\\' then shlexRun rest .escN acc true toks
      else shlexRun rest .norm (c :: acc) true toks
    | .squote =>
      if c == sqChar then shlexRun rest .norm acc inTok toks
      else shlexRun rest .squote (c :: acc) inTok toks
    | .dquote =>
      if c == '"' then shlexRun rest .norm acc inTok toks
      else if c == '\\' then shlexRun rest .escD acc inTok toks
      else shlexRun rest .dquote (c :: acc) inTok toks
    | .escN => shlexRun rest .norm (c :: acc) inTok toks
    | .escD =>
      if c == '"' || c == '\\' then shlexRun rest .dquote (c :: acc) inTok toks
      else shlexRun rest .dquote (c :: '\\' :: acc) inTok toks

/-- Modelled from the spec and the Python stdlib: shlex.split in POSIX mode;
raises ValueError on an unbalanced quote or trailing escape. -/
def shlexSplit (s : String) : Except PyExc (List String) :=
  shlexRun s.toList .norm [] false []

/-- privmsg: build the command string exactly as the source does (private
message, then the nickname-colon prefix which overrides it, then the optional
command prefix), and when one is recognised, strip and shlex-split it and
dispatch on `parts[0]`.  An unbalanced quote surfaces shlex's ValueError; an
empty remainder makes `parts[0]` raise IndexError; in both cases nothing is
sent.  Returns the fallback messages sent. -/
def privmsg (nickname : String) (cmdPrefix : Option String)
    (cmap : List (String × List Instance)) (user channel message : String) :
    Except PyExc (List Sent) :=
  let c0 : Option String := if channel == nickname then some message else none
  let c1 : Option String :=
    if pyStartsWith message (nickname ++ ":") then
      some (pyDrop message (nickname.length + 1))
    else
      match cmdPrefix with
      | some pre => if pyStartsWith message pre then some (pyDrop message pre.length) else c0
      | none => c0
  match c1 with
  | none => .ok []
  | some cs =>
    match shlexSplit (pyStrip cs) with
    | .error e => .error e
    | .ok [] => .error .indexError
    | .ok (cmd :: _) => .ok (dispatch_command cmap nickname user channel cmd).1

/-- Claim C10: three command-addressed inbound messages on which privmsg
raises instead of replying or ignoring: the empty private message and the
channel message consisting of exactly `nickname:` raise IndexError at
`parts[0]`; a message whose remainder has an unbalanced double quote raises
ValueError inside shlex; in each case the error propagates and no reply
(in particular no command-not-understood reply) is sent. -/
theorem privmsg_raises_cex :
    privmsg "cassbot" none [] "u!l@h" "cassbot" "" = .error .indexError ∧
    privmsg "cassbot" none [] "u!l@h" "#chan" "cassbot:" = .error .indexError ∧
    privmsg "cassbot" none [] "u!l@h" "#chan" "cassbot: say \"oops" = .error .valueError :=
  ⟨rfl, rfl, rfl⟩

/-! ### CassBotService plugin registry (src/cassbot.py lines 435-612)

The service state: the pluginmap of enabled names (sentinel or instance), the
per-plugin persisted state blobs under state['plugins'], the two derived
indexes, the auth map, and the re-entrant-scan bookkeeping flags.  Plugin
discovery (twisted getPlugins) is an external collaborator and enters as an
explicit list of discoverable classes. -/

structure SvcState where
  pluginmap : List (String × PEntry)
  statePlugins : List (String × PObj)
  watcher_map : List (String × List Instance)
  command_map : List (String × List Instance)
  auth : AuthMap
  scanning_now : Bool
  scan_again : Bool
deriving DecidableEq

/-- The watcher/command list of an index key (empty when absent). -/
def lookupL (k : String) (m : List (String × List Instance)) : List Instance :=
  (alookup k m).getD []

/-- `self.map.setdefault(key, []).append(p)`. -/
def mapAppend (k : String) (i : Instance) (m : List (String × List Instance)) :
    List (String × List Instance) :=
  match alookup k m with
  | none => m ++ [(k, [i])]
  | some l => aupdate k (l ++ [i]) m

/-- Instantiating a plugin class: `pclass()` followed by loadState when the
persisted state blob for the name exists and is truthy (`if pstate:`). -/
def freshInstance (c : PClass) (sp : List (String × PObj)) : Instance :=
  match alookup c.cname sp with
  | some v =>
    if v.isTruthy then { icls := c, saveVal := c.initSave, loadedVal := some v }
    else { icls := c, saveVal := c.initSave, loadedVal := none }
  | none => { icls := c, saveVal := c.initSave, loadedVal := none }

/-- Append an instance under each of its interestingMethods and
implementedCommands keys. -/
def indexInstance (p : Instance) (st : SvcState) : SvcState :=
  { st with
    watcher_map := p.icls.interests.foldl (fun m ev => mapAppend ev p m) st.watcher_map,
    command_map := p.icls.cmds.foldl (fun m cv => mapAppend cv p m) st.command_map }

/-- One iteration of the _really_scan_plugins loop for one discoverable
class: skip names that are not enabled; index an existing instance; on the
enabled_but_not_found sentinel, enable_plugin runs (instantiate, load state,
store) and its trailing scan_plugins call, made while scanning_now is true,
only sets scan_again. -/
def scanStep (st : SvcState) (c : PClass) : SvcState :=
  match alookup c.cname st.pluginmap with
  | none => st
  | some (.inst p) => indexInstance p st
  | some .marker =>
    let p := freshInstance c st.statePlugins
    indexInstance p
      { st with pluginmap := aupdate c.cname (.inst p) st.pluginmap, scan_again := true }

/-- _really_scan_plugins: reset both indexes and fold the step over every
discoverable class. -/
def scanPass (disc : List PClass) (st : SvcState) : SvcState :=
  disc.foldl scanStep { st with watcher_map := [], command_map := [] }

/-- The while-True loop of scan_plugins: clear scan_again, run a pass, and
repeat while a nested request arrived; the fuel only bounds the extra passes
(at least one pass always runs, and with fuel 0 the pass result is returned
whether or not another pass was requested). -/
def scanLoop (disc : List PClass) : Nat → SvcState → SvcState
  | 0, st => scanPass disc { st with scan_again := false }
  | g + 1, st =>
    if (scanPass disc { st with scan_again := false }).scan_again then
      scanLoop disc g (scanPass disc { st with scan_again := false })
    else scanPass disc { st with scan_again := false }

/-- scan_plugins: a nested call only records scan_again; an outer call runs
the loop under scanning_now and clears it afterwards. -/
def scan_plugins (disc : List PClass) (fuel : Nat) (st : SvcState) : SvcState :=
  if st.scanning_now then { st with scan_again := true }
  else
    match fuel with
    | 0 => st
    | f + 1 => { scanLoop disc f { st with scanning_now := true } with scanning_now := false }

/-- The instantiate-if-needed part of enable_plugin (everything before its
trailing scan_plugins call). -/
def instantiatePlugin (c : PClass) (st : SvcState) : Instance × SvcState :=
  match alookup c.cname st.pluginmap with
  | some (.inst p) => (p, st)
  | _ =>
    let p := freshInstance c st.statePlugins
    (p, { st with pluginmap := aupdate c.cname (.inst p) st.pluginmap })

/-- enable_plugin: return the existing instance or instantiate, then
scan_plugins. -/
def enable_plugin (disc : List PClass) (fuel : Nat) (c : PClass) (st : SvcState) :
    Instance × SvcState :=
  match instantiatePlugin c st with
  | (p, st1) => (p, scan_plugins disc fuel st1)

/-- enable_plugin_by_name: reserve the name with the enabled_but_not_found
sentinel when absent, and scan regardless. -/
def enable_plugin_by_name (disc : List PClass) (fuel : Nat) (pname : String)
    (st : SvcState) : SvcState :=
  scan_plugins disc fuel { st with pluginmap := asetdefault pname .marker st.pluginmap }

/-- disable_plugin: pop the entry; when it was a real instance, harvest its
saveState into state['plugins'] (popping the blob when saveState is None);
always rescan. -/
def disable_plugin (disc : List PClass) (fuel : Nat) (pname : String)
    (st : SvcState) : SvcState :=
  match alookup pname st.pluginmap with
  | some (.inst p) =>
    let sp := match p.saveVal with
              | none => aerase pname st.statePlugins
              | some v => aupdate pname v st.statePlugins
    scan_plugins disc fuel
      { st with pluginmap := aerase pname st.pluginmap, statePlugins := sp }
  | some .marker =>
    scan_plugins disc fuel { st with pluginmap := aerase pname st.pluginmap }
  | none => scan_plugins disc fuel st

/-- The dict pickled by saveStateToFile. -/
structure Snapshot where
  pluginsEnabled : List String
  plugins : List (String × PObj)
  authMap : AuthMap
deriving DecidableEq

/-- saveStateToFile: record the current pluginmap keys under
state['plugins_enabled'], disable every one of them (harvesting their state),
record the auth map, and dump the state dict. -/
def saveStateToFile (disc : List PClass) (fuel : Nat) (st : SvcState) :
    SvcState × Snapshot :=
  let names := st.pluginmap.map Prod.fst
  let st1 := names.foldl (fun s n => disable_plugin disc fuel n s) st
  (st1, { pluginsEnabled := names, plugins := st1.statePlugins, authMap := st1.auth })

/-! ### State loading at service start (src/cassbot.py lines 469-477, 605-612)

The statefile content enters as the outcome of `open` plus `pickle.load`: a
decoded snapshot, or the Python exception class the failed call raised.  A
missing or unreadable file raises IOError; a corrupt pickle raises
(depending on the corruption) ValueError, cPickle.UnpicklingError, EOFError,
and others.  startService wraps loadStateFromFile in
`except (IOError, ValueError): pass`. -/

/-- The decoded form of a persisted state dict. -/
structure LoadedSnap where
  pluginsEnabled : List String
  plugins : List (String × PObj)
  authMap : Option AuthMap
deriving DecidableEq

/-- The successful part of loadStateFromFile: replace the state dict, restore
the auth map when the snapshot has one, and enable every persisted name. -/
def applySnapshot (disc : List PClass) (fuel : Nat) (st : SvcState)
    (snap : LoadedSnap) : SvcState :=
  let st1 := { st with
    statePlugins := snap.plugins,
    auth := match snap.authMap with
            | some a => a
            | none => st.auth }
  snap.pluginsEnabled.foldl (fun s n => enable_plugin_by_name disc fuel n s) st1

/-- loadStateFromFile: propagate a read or deserialization error, else apply
the snapshot. -/
def loadStateFromFile (disc : List PClass) (fuel : Nat) (st : SvcState)
    (decoded : Except PyExc LoadedSnap) : Except PyExc SvcState :=
  match decoded with
  | .ok snap => .ok (applySnapshot disc fuel st snap)
  | .error e => .error e

/-- The exception classes named by the `except (IOError, ValueError)` clause
of startService. -/
def isCaughtAtStart : PyExc → Bool
  | .ioError => true
  | .valueError => true
  | _ => false

/-- startService around the load: swallow IOError and ValueError (keeping the
prior state), propagate everything else. -/
def startService (disc : List PClass) (fuel : Nat) (st : SvcState)
    (decoded : Except PyExc LoadedSnap) : Except PyExc SvcState :=
  match loadStateFromFile disc fuel st decoded with
  | .ok s => .ok s
  | .error e => if isCaughtAtStart e then .ok st else .error e

/-- The state built by CassBotService.__init__: identity defaults, no
plugins, empty auth map. -/
def initSvcState : SvcState :=
  { pluginmap := [], statePlugins := [], watcher_map := [], command_map := [],
    auth := [], scanning_now := false, scan_again := false }

/-- Claim C3 (counterexample): a corrupt snapshot whose deserialization
raises cPickle.UnpicklingError (for example a file of garbage opcodes; an
empty file raising EOFError behaves the same) is not caught by the
`except (IOError, ValueError)` clause, so startService propagates the error
instead of proceeding with default state. -/
theorem startService_corrupt_cex :
    startService [] 1 initSvcState (.error .unpicklingError) =
      .error .unpicklingError := rfl

/-- Claim C3 (amended): load failures raising IOError (absent or unreadable
file) or ValueError are swallowed and the service proceeds with its prior
default state; a load failure of any other exception class (such as
UnpicklingError or EOFError from a corrupt pickle) propagates out of
startService. -/
theorem startService_catches (disc : List PClass) (fuel : Nat) (st : SvcState)
    (decoded : Except PyExc LoadedSnap) :
    (∀ e, decoded = .error e → isCaughtAtStart e = true →
      startService disc fuel st decoded = .ok st) ∧
    (∀ e, decoded = .error e → isCaughtAtStart e = false →
      startService disc fuel st decoded = .error e) := by
  constructor
  · rintro e rfl hc
    simp [startService, loadStateFromFile, hc]
  · rintro e rfl hc
    simp [startService, loadStateFromFile, hc]

/-- Concrete runs of the C3 theorem: an absent file (IOError) is tolerated,
an EOFError from a truncated pickle propagates. -/
theorem startService_catches_w :
    startService [] 1 initSvcState (.error .ioError) = .ok initSvcState ∧
    startService [] 1 initSvcState (.error .eofError) = .error .eofError :=
  ⟨(startService_catches [] 1 initSvcState (.error .ioError)).1 .ioError rfl rfl,
   (startService_catches [] 1 initSvcState (.error .eofError)).2 .eofError rfl rfl⟩

/-! ### Association-list lemmas -/

theorem alookup_aupdate_self {β : Type} (k : String) (v : β) (l : List (String × β)) :
    alookup k (aupdate k v l) = some v := by
  induction l with
  | nil => simp [aupdate, alookup]
  | cons e rest ih =>
    rcases e with ⟨k2, v2⟩
    by_cases h : (k2 == k) = true
    · simp [aupdate, h, alookup]
    · simp only [aupdate, h, Bool.false_eq_true, if_false, alookup, ih]

theorem alookup_aupdate_other {β : Type} (k k2 : String) (v : β) (l : List (String × β))
    (h : k2 ≠ k) : alookup k (aupdate k2 v l) = alookup k l := by
  induction l with
  | nil =>
    simp only [aupdate, alookup]
    rw [if_neg (by simpa using h)]
  | cons e rest ih =>
    rcases e with ⟨k3, v3⟩
    by_cases h3 : (k3 == k2) = true
    · have hk3 : (k3 == k) = false := by
        have : k3 = k2 := beq_iff_eq.mp h3
        subst this
        simpa using h
      simp only [aupdate, h3, if_true, alookup, hk3, Bool.false_eq_true, if_false]
      rw [if_neg (by simpa using h)]
    · simp only [aupdate, h3, Bool.false_eq_true, if_false, alookup, ih]

theorem alookup_aerase_self {β : Type} (k : String) (l : List (String × β)) :
    alookup k (aerase k l) = none := by
  induction l with
  | nil => rfl
  | cons e rest ih =>
    rcases e with ⟨k2, v2⟩
    by_cases h : (k2 == k) = true
    · simpa [aerase, h] using ih
    · simpa [aerase, alookup, h] using ih

theorem alookup_aerase_other {β : Type} (k k2 : String) (l : List (String × β))
    (h : k2 ≠ k) : alookup k (aerase k2 l) = alookup k l := by
  induction l with
  | nil => rfl
  | cons e rest ih =>
    rcases e with ⟨k3, v3⟩
    by_cases h3 : (k3 == k2) = true
    · have hk3 : (k3 == k) = false := by
        have : k3 = k2 := beq_iff_eq.mp h3
        subst this
        simpa using h
      simpa [aerase, alookup, h3, hk3] using ih
    · simp only [aerase, List.filter_cons]
      simp only [h3, Bool.not_false, if_true]
      simp only [alookup]
      by_cases hk : (k3 == k) = true
      · simp [hk]
      · simpa [hk, aerase] using ih

theorem mapfst_aerase {β : Type} (k : String) (l : List (String × β)) :
    (aerase k l).map Prod.fst = (l.map Prod.fst).filter (fun x => !(x == k)) := by
  induction l with
  | nil => rfl
  | cons e rest ih =>
    rcases e with ⟨k2, v2⟩
    by_cases h : (k2 == k) = true
    · simpa [aerase, List.filter_cons, h] using ih
    · simpa [aerase, List.filter_cons, h] using ih

theorem mapfst_aupdate_mem {β : Type} (k : String) (v w : β) (l : List (String × β))
    (h : alookup k l = some w) : (aupdate k v l).map Prod.fst = l.map Prod.fst := by
  induction l with
  | nil => simp [alookup] at h
  | cons e rest ih =>
    rcases e with ⟨k2, v2⟩
    by_cases h2 : (k2 == k) = true
    · simp only [aupdate, h2, if_true, List.map_cons]
      have : k2 = k := beq_iff_eq.mp h2
      rw [this]
    · simp only [alookup, h2, Bool.false_eq_true, if_false] at h
      simp only [aupdate, h2, Bool.false_eq_true, if_false, List.map_cons, ih h]

theorem alookup_append_some {β : Type} (k : String) (l1 l2 : List (String × β)) (w : β)
    (h : alookup k l1 = some w) : alookup k (l1 ++ l2) = some w := by
  induction l1 with
  | nil => simp [alookup] at h
  | cons e rest ih =>
    rcases e with ⟨k2, v2⟩
    by_cases h2 : (k2 == k) = true
    · simp only [alookup, h2, if_true] at h
      simp [alookup, h2, h]
    · simp only [alookup, h2, Bool.false_eq_true, if_false] at h
      simpa [alookup, h2] using ih h

theorem alookup_append_none {β : Type} (k : String) (l1 l2 : List (String × β))
    (h : alookup k l1 = none) : alookup k (l1 ++ l2) = alookup k l2 := by
  induction l1 with
  | nil => rfl
  | cons e rest ih =>
    rcases e with ⟨k2, v2⟩
    by_cases h2 : (k2 == k) = true
    · simp [alookup, h2] at h
    · simp only [alookup, h2, Bool.false_eq_true, if_false] at h
      simpa [alookup, h2] using ih h

theorem alookup_asetdefault_absent {β : Type} (k : String) (v : β) (l : List (String × β))
    (h : alookup k l = none) : alookup k (asetdefault k v l) = some v := by
  unfold asetdefault
  rw [h, alookup_append_none k l _ h]
  simp [alookup]

theorem alookup_none_not_memfst {β : Type} (k : String) (l : List (String × β))
    (h : alookup k l = none) : ∀ x ∈ l.map Prod.fst, x ≠ k := by
  induction l with
  | nil => simp
  | cons e rest ih =>
    rcases e with ⟨k2, v2⟩
    by_cases h2 : (k2 == k) = true
    · simp [alookup, h2] at h
    · simp only [alookup, h2, Bool.false_eq_true, if_false] at h
      intro x hx
      rcases List.mem_cons.mp hx with rfl | hx2
      · simpa using h2
      · exact ih h x hx2

/-! ### mapAppend and indexInstance membership lemmas -/

theorem mapAppend_self_mem (k : String) (i : Instance) (m : List (String × List Instance)) :
    i ∈ lookupL k (mapAppend k i m) := by
  unfold mapAppend lookupL
  cases h : alookup k m with
  | none =>
    rw [alookup_append_none k m _ h]
    simp [alookup]
  | some l =>
    rw [alookup_aupdate_self]
    simp

theorem mapAppend_mono (k k2 : String) (i j : Instance) (m : List (String × List Instance))
    (h : i ∈ lookupL k m) : i ∈ lookupL k (mapAppend k2 j m) := by
  unfold mapAppend
  cases h2 : alookup k2 m with
  | none =>
    unfold lookupL at h ⊢
    cases hk : alookup k m with
    | none => simp [hk] at h
    | some l =>
      rw [alookup_append_some k m _ l hk]
      simpa [hk] using h
  | some l =>
    by_cases hk : k2 = k
    · subst hk
      unfold lookupL at h ⊢
      rw [h2] at h
      rw [alookup_aupdate_self]
      simp only [Option.getD_some] at h ⊢
      exact List.mem_append.mpr (Or.inl h)
    · unfold lookupL at h ⊢
      rw [alookup_aupdate_other k k2 _ m hk]
      exact h

theorem foldl_mapAppend_mono (p i : Instance) (ev : String) (evs : List String)
    (m : List (String × List Instance)) (h : i ∈ lookupL ev m) :
    i ∈ lookupL ev (evs.foldl (fun acc e => mapAppend e p acc) m) := by
  induction evs generalizing m with
  | nil => exact h
  | cons e rest ih => exact ih (mapAppend e p m) (mapAppend_mono ev e i p m h)

theorem foldl_mapAppend_self (p : Instance) (ev : String) (evs : List String)
    (m : List (String × List Instance)) (hev : ev ∈ evs) :
    p ∈ lookupL ev (evs.foldl (fun acc e => mapAppend e p acc) m) := by
  induction evs generalizing m with
  | nil => simp at hev
  | cons e rest ih =>
    rcases List.mem_cons.mp hev with rfl | hev2
    · exact foldl_mapAppend_mono p p ev rest (mapAppend ev p m) (mapAppend_self_mem ev p m)
    · exact ih (mapAppend e p m) hev2

theorem indexInstance_mem (p : Instance) (st : SvcState) :
    (∀ ev ∈ p.icls.interests, p ∈ lookupL ev (indexInstance p st).watcher_map) ∧
    (∀ cv ∈ p.icls.cmds, p ∈ lookupL cv (indexInstance p st).command_map) :=
  ⟨fun ev hev => foldl_mapAppend_self p ev _ st.watcher_map hev,
   fun cv hcv => foldl_mapAppend_self p cv _ st.command_map hcv⟩

theorem indexInstance_mono (p i : Instance) (ev : String) (st : SvcState) :
    (i ∈ lookupL ev st.watcher_map → i ∈ lookupL ev (indexInstance p st).watcher_map) ∧
    (i ∈ lookupL ev st.command_map → i ∈ lookupL ev (indexInstance p st).command_map) :=
  ⟨fun h => foldl_mapAppend_mono p i ev _ st.watcher_map h,
   fun h => foldl_mapAppend_mono p i ev _ st.command_map h⟩

/-! ### scanStep invariants -/

theorem scanStep_statePlugins (st : SvcState) (c : PClass) :
    (scanStep st c).statePlugins = st.statePlugins := by
  unfold scanStep
  cases alookup c.cname st.pluginmap with
  | none => rfl
  | some e =>
    cases e with
    | marker => rfl
    | inst p => rfl

theorem scanStep_scanningNow (st : SvcState) (c : PClass) :
    (scanStep st c).scanning_now = st.scanning_now := by
  unfold scanStep
  cases alookup c.cname st.pluginmap with
  | none => rfl
  | some e =>
    cases e with
    | marker => rfl
    | inst p => rfl

theorem scanStep_mapfst (st : SvcState) (c : PClass) :
    (scanStep st c).pluginmap.map Prod.fst = st.pluginmap.map Prod.fst := by
  unfold scanStep
  cases h : alookup c.cname st.pluginmap with
  | none => rfl
  | some e =>
    cases e with
    | inst p => rfl
    | marker =>
      show (aupdate c.cname _ st.pluginmap).map Prod.fst = _
      exact mapfst_aupdate_mem c.cname _ _ _ h

theorem scanStep_inst_entry (st : SvcState) (c : PClass) (p0 : String) (i : Instance)
    (h : alookup p0 st.pluginmap = some (.inst i)) :
    alookup p0 (scanStep st c).pluginmap = some (.inst i) := by
  unfold scanStep
  cases hc : alookup c.cname st.pluginmap with
  | none => exact h
  | some e =>
    cases e with
    | inst p => exact h
    | marker =>
      by_cases hk : c.cname = p0
      · subst hk
        rw [hc] at h
        exact absurd h (by simp)
      · show alookup p0 (aupdate c.cname _ st.pluginmap) = _
        rw [alookup_aupdate_other p0 c.cname _ st.pluginmap hk]
        exact h

theorem scanStep_none_entry (st : SvcState) (c : PClass) (p0 : String)
    (h : alookup p0 st.pluginmap = none) :
    alookup p0 (scanStep st c).pluginmap = none := by
  unfold scanStep
  cases hc : alookup c.cname st.pluginmap with
  | none => exact h
  | some e =>
    cases e with
    | inst p => exact h
    | marker =>
      by_cases hk : c.cname = p0
      · subst hk
        rw [hc] at h
        exact absurd h (by simp)
      · show alookup p0 (aupdate c.cname _ st.pluginmap) = _
        rw [alookup_aupdate_other p0 c.cname _ st.pluginmap hk]
        exact h

theorem scanStep_marker_entry (st : SvcState) (c : PClass) (p0 : String)
    (hne : c.cname ≠ p0) (h : alookup p0 st.pluginmap = some .marker) :
    alookup p0 (scanStep st c).pluginmap = some .marker := by
  unfold scanStep
  cases hc : alookup c.cname st.pluginmap with
  | none => exact h
  | some e =>
    cases e with
    | inst p => exact h
    | marker =>
      show alookup p0 (aupdate c.cname _ st.pluginmap) = _
      rw [alookup_aupdate_other p0 c.cname _ st.pluginmap hne]
      exact h

theorem scanStep_mem_watch (st : SvcState) (c : PClass) (i : Instance) (ev : String)
    (h : i ∈ lookupL ev st.watcher_map) :
    i ∈ lookupL ev (scanStep st c).watcher_map := by
  unfold scanStep
  cases alookup c.cname st.pluginmap with
  | none => exact h
  | some e =>
    cases e with
    | inst p => exact (indexInstance_mono p i ev st).1 h
    | marker => exact (indexInstance_mono _ i ev _).1 h

theorem scanStep_mem_cmd (st : SvcState) (c : PClass) (i : Instance) (cv : String)
    (h : i ∈ lookupL cv st.command_map) :
    i ∈ lookupL cv (scanStep st c).command_map := by
  unfold scanStep
  cases alookup c.cname st.pluginmap with
  | none => exact h
  | some e =>
    cases e with
    | inst p => exact (indexInstance_mono p i cv st).2 h
    | marker => exact (indexInstance_mono _ i cv _).2 h

/-! ### Fold and loop invariants -/

theorem foldl_inv {σ γ : Type} (f : σ → γ → σ) (P : σ → Prop) (l : List γ) :
    ∀ s : σ, (∀ s2 c, c ∈ l → P s2 → P (f s2 c)) → P s → P (l.foldl f s) := by
  induction l with
  | nil => exact fun s _ h => h
  | cons c rest ih =>
    intro s hstep hP
    exact ih (f s c)
      (fun s2 c2 hc2 hp2 => hstep s2 c2 (List.mem_cons_of_mem c hc2) hp2)
      (hstep s c (List.mem_cons_self c rest) hP)

theorem scanPass_statePlugins (disc : List PClass) (st : SvcState) :
    (scanPass disc st).statePlugins = st.statePlugins := by
  unfold scanPass
  exact foldl_inv scanStep (fun s => s.statePlugins = st.statePlugins) disc _
    (fun s2 c _ hp => (scanStep_statePlugins s2 c).trans hp) rfl

theorem scanPass_scanningNow (disc : List PClass) (st : SvcState) :
    (scanPass disc st).scanning_now = st.scanning_now := by
  unfold scanPass
  exact foldl_inv scanStep (fun s => s.scanning_now = st.scanning_now) disc _
    (fun s2 c _ hp => (scanStep_scanningNow s2 c).trans hp) rfl

theorem scanPass_mapfst (disc : List PClass) (st : SvcState) :
    (scanPass disc st).pluginmap.map Prod.fst = st.pluginmap.map Prod.fst := by
  unfold scanPass
  exact foldl_inv scanStep (fun s => s.pluginmap.map Prod.fst = st.pluginmap.map Prod.fst)
    disc _ (fun s2 c _ hp => (scanStep_mapfst s2 c).trans hp) rfl

theorem scanPass_inst_entry (disc : List PClass) (st : SvcState) (p0 : String) (i : Instance)
    (h : alookup p0 st.pluginmap = some (.inst i)) :
    alookup p0 (scanPass disc st).pluginmap = some (.inst i) := by
  unfold scanPass
  exact foldl_inv scanStep (fun s => alookup p0 s.pluginmap = some (.inst i)) disc _
    (fun s2 c _ hp => scanStep_inst_entry s2 c p0 i hp) h

theorem scanPass_none_entry (disc : List PClass) (st : SvcState) (p0 : String)
    (h : alookup p0 st.pluginmap = none) :
    alookup p0 (scanPass disc st).pluginmap = none := by
  unfold scanPass
  exact foldl_inv scanStep (fun s => alookup p0 s.pluginmap = none) disc _
    (fun s2 c _ hp => scanStep_none_entry s2 c p0 hp) h

theorem scanPass_marker_entry (disc : List PClass) (st : SvcState) (p0 : String)
    (hdisc : ∀ c ∈ disc, c.cname ≠ p0)
    (h : alookup p0 st.pluginmap = some .marker) :
    alookup p0 (scanPass disc st).pluginmap = some .marker := by
  unfold scanPass
  exact foldl_inv scanStep (fun s => alookup p0 s.pluginmap = some .marker) disc _
    (fun s2 c hc hp => scanStep_marker_entry s2 c p0 (hdisc c hc) hp) h

theorem scanLoop_inv (disc : List PClass) (P : SvcState → Prop)
    (hstep : ∀ st, P st → P (scanPass disc { st with scan_again := false })) :
    ∀ (f : Nat) (st : SvcState), P st → P (scanLoop disc f st) := by
  intro f
  induction f with
  | zero => exact fun st hP => hstep st hP
  | succ g ih =>
    intro st hP
    unfold scanLoop
    split
    · exact ih _ (hstep st hP)
    · exact hstep st hP

theorem scan_plugins_statePlugins (disc : List PClass) (fuel : Nat) (st : SvcState) :
    (scan_plugins disc fuel st).statePlugins = st.statePlugins := by
  unfold scan_plugins
  split
  · rfl
  · cases fuel with
    | zero => rfl
    | succ f =>
      show (scanLoop disc f { st with scanning_now := true }).statePlugins = st.statePlugins
      exact scanLoop_inv disc (fun s => s.statePlugins = st.statePlugins)
        (fun s hp => (scanPass_statePlugins disc _).trans hp) f _ rfl

theorem scan_plugins_scanningNow (disc : List PClass) (fuel : Nat) (st : SvcState)
    (hst : st.scanning_now = false) :
    (scan_plugins disc fuel st).scanning_now = false := by
  unfold scan_plugins
  split
  next h => exact absurd h (by simp [hst])
  next h =>
    cases fuel with
    | zero => exact hst
    | succ f => rfl

theorem scan_plugins_mapfst (disc : List PClass) (fuel : Nat) (st : SvcState) :
    (scan_plugins disc fuel st).pluginmap.map Prod.fst = st.pluginmap.map Prod.fst := by
  unfold scan_plugins
  split
  · rfl
  · cases fuel with
    | zero => rfl
    | succ f =>
      show (scanLoop disc f { st with scanning_now := true }).pluginmap.map Prod.fst
        = st.pluginmap.map Prod.fst
      exact scanLoop_inv disc
        (fun s => s.pluginmap.map Prod.fst = st.pluginmap.map Prod.fst)
        (fun s hp => (scanPass_mapfst disc _).trans hp) f _ rfl

theorem scan_plugins_inst_entry (disc : List PClass) (fuel : Nat) (st : SvcState)
    (p0 : String) (i : Instance) (h : alookup p0 st.pluginmap = some (.inst i)) :
    alookup p0 (scan_plugins disc fuel st).pluginmap = some (.inst i) := by
  unfold scan_plugins
  split
  · exact h
  · cases fuel with
    | zero => exact h
    | succ f =>
      show alookup p0 (scanLoop disc f { st with scanning_now := true }).pluginmap = _
      exact scanLoop_inv disc (fun s => alookup p0 s.pluginmap = some (.inst i))
        (fun s hp => scanPass_inst_entry disc _ p0 i hp) f _ h

theorem scan_plugins_none_entry (disc : List PClass) (fuel : Nat) (st : SvcState)
    (p0 : String) (h : alookup p0 st.pluginmap = none) :
    alookup p0 (scan_plugins disc fuel st).pluginmap = none := by
  unfold scan_plugins
  split
  · exact h
  · cases fuel with
    | zero => exact h
    | succ f =>
      show alookup p0 (scanLoop disc f { st with scanning_now := true }).pluginmap = _
      exact scanLoop_inv disc (fun s => alookup p0 s.pluginmap = none)
        (fun s hp => scanPass_none_entry disc _ p0 hp) f _ h

theorem scan_plugins_marker_entry (disc : List PClass) (fuel : Nat) (st : SvcState)
    (p0 : String) (hdisc : ∀ c ∈ disc, c.cname ≠ p0)
    (h : alookup p0 st.pluginmap = some .marker) :
    alookup p0 (scan_plugins disc fuel st).pluginmap = some .marker := by
  unfold scan_plugins
  split
  · exact h
  · cases fuel with
    | zero => exact h
    | succ f =>
      show alookup p0 (scanLoop disc f { st with scanning_now := true }).pluginmap = _
      exact scanLoop_inv disc (fun s => alookup p0 s.pluginmap = some .marker)
        (fun s hp => scanPass_marker_entry disc _ p0 hdisc hp) f _ h

/-! ### Scans over an empty pluginmap -/

theorem scanStep_empty (st : SvcState) (c : PClass) (h : st.pluginmap = []) :
    scanStep st c = st := by
  unfold scanStep
  rw [h]
  rfl

theorem scanPass_id_of_empty (disc : List PClass) (st : SvcState) (h : st.pluginmap = []) :
    scanPass disc st = { st with watcher_map := [], command_map := [] } := by
  unfold scanPass
  exact foldl_inv scanStep (fun s => s = { st with watcher_map := [], command_map := [] })
    disc _ (fun s2 c _ hp => by rw [hp]; exact scanStep_empty _ c h) rfl

theorem scanLoop_empty (disc : List PClass) :
    ∀ (g : Nat) (st : SvcState), st.pluginmap = [] →
    scanLoop disc g st = { st with scan_again := false, watcher_map := [], command_map := [] } := by
  intro g
  induction g with
  | zero =>
    intro st h
    unfold scanLoop
    exact scanPass_id_of_empty disc { st with scan_again := false } h
  | succ g ih =>
    intro st h
    unfold scanLoop
    rw [scanPass_id_of_empty disc { st with scan_again := false } h]
    simp

theorem scan_plugins_empty (disc : List PClass) (fuel : Nat) (st : SvcState)
    (hpm : st.pluginmap = []) (hsn : st.scanning_now = false) (hf : 1 ≤ fuel) :
    scan_plugins disc fuel st =
      { st with watcher_map := [], command_map := [], scan_again := false } := by
  cases fuel with
  | zero => omega
  | succ f =>
    unfold scan_plugins
    rw [hsn, if_neg (by simp)]
    show { scanLoop disc f { st with scanning_now := true } with scanning_now := false } = _
    rw [scanLoop_empty disc f { st with scanning_now := true } hpm]

/-! ### disable_plugin bookkeeping -/

theorem filter_id_of_all {γ : Type} (l : List γ) (p : γ → Bool)
    (h : ∀ x ∈ l, p x = true) : l.filter p = l := by
  induction l with
  | nil => rfl
  | cons a rest ih =>
    rw [List.filter_cons_of_pos (h a (List.mem_cons_self a rest))]
    rw [ih (fun x hx => h x (List.mem_cons_of_mem a hx))]

theorem disable_mapfst (disc : List PClass) (fuel : Nat) (n : String) (st : SvcState) :
    (disable_plugin disc fuel n st).pluginmap.map Prod.fst
      = (st.pluginmap.map Prod.fst).filter (fun x => !(x == n)) := by
  unfold disable_plugin
  cases h : alookup n st.pluginmap with
  | none =>
    rw [scan_plugins_mapfst]
    exact (filter_id_of_all _ _ (fun x hx => by
      have := alookup_none_not_memfst n st.pluginmap h x hx
      simpa using this)).symm
  | some e =>
    cases e with
    | marker =>
      rw [scan_plugins_mapfst]
      exact mapfst_aerase n st.pluginmap
    | inst p =>
      rw [scan_plugins_mapfst]
      exact mapfst_aerase n st.pluginmap

theorem disable_scanningNow (disc : List PClass) (fuel : Nat) (n : String) (st : SvcState)
    (hsn : st.scanning_now = false) :
    (disable_plugin disc fuel n st).scanning_now = false := by
  unfold disable_plugin
  cases alookup n st.pluginmap with
  | none => exact scan_plugins_scanningNow disc fuel st hsn
  | some e =>
    cases e with
    | marker => exact scan_plugins_scanningNow disc fuel _ hsn
    | inst p => exact scan_plugins_scanningNow disc fuel _ hsn

theorem disable_is_scan (disc : List PClass) (fuel : Nat) (n : String) (st : SvcState) :
    ∃ s2 : SvcState, disable_plugin disc fuel n st = scan_plugins disc fuel s2 ∧
      s2.scanning_now = st.scanning_now := by
  unfold disable_plugin
  cases alookup n st.pluginmap with
  | none => exact ⟨st, rfl, rfl⟩
  | some e =>
    cases e with
    | marker => exact ⟨_, rfl, rfl⟩
    | inst p => exact ⟨_, rfl, rfl⟩

theorem scan_result_empty_maps (disc : List PClass) (fuel : Nat) (s2 : SvcState)
    (hsn : s2.scanning_now = false) (hf : 1 ≤ fuel)
    (hres : (scan_plugins disc fuel s2).pluginmap = []) :
    (scan_plugins disc fuel s2).watcher_map = [] ∧
    (scan_plugins disc fuel s2).command_map = [] := by
  have hkeys := scan_plugins_mapfst disc fuel s2
  rw [hres] at hkeys
  have hpm : s2.pluginmap = [] := by
    have h2 : s2.pluginmap.map Prod.fst = [] := hkeys.symm
    exact List.map_eq_nil_iff.mp h2
  rw [scan_plugins_empty disc fuel s2 hpm hsn hf]
  exact ⟨rfl, rfl⟩

theorem disable_result_empty_maps (disc : List PClass) (fuel : Nat) (n : String)
    (st : SvcState) (hsn : st.scanning_now = false) (hf : 1 ≤ fuel)
    (hres : (disable_plugin disc fuel n st).pluginmap = []) :
    (disable_plugin disc fuel n st).watcher_map = [] ∧
    (disable_plugin disc fuel n st).command_map = [] := by
  rcases disable_is_scan disc fuel n st with ⟨s2, heq, hsc⟩
  rw [heq] at hres ⊢
  exact scan_result_empty_maps disc fuel s2 (hsc.trans hsn) hf hres

/-! ### Folding disables over the enabled names -/

theorem foldDisable_facts (disc : List PClass) (fuel : Nat) :
    ∀ (names : List String) (st : SvcState), st.scanning_now = false →
      ((names.foldl (fun s n => disable_plugin disc fuel n s) st).pluginmap.map Prod.fst
        = names.foldl (fun ks n => ks.filter (fun x => !(x == n)))
            (st.pluginmap.map Prod.fst)) ∧
      (names.foldl (fun s n => disable_plugin disc fuel n s) st).scanning_now = false := by
  intro names
  induction names with
  | nil => exact fun st h => ⟨rfl, h⟩
  | cons n rest ih =>
    intro st h
    simp only [List.foldl_cons]
    rcases ih (disable_plugin disc fuel n st) (disable_scanningNow disc fuel n st h) with
      ⟨ha, hb⟩
    refine ⟨?_, hb⟩
    rw [ha, disable_mapfst disc fuel n st]

theorem foldl_filter_all :
    ∀ (names ks : List String), (∀ x ∈ ks, x ∈ names) →
      names.foldl (fun ks n => ks.filter (fun x => !(x == n))) ks = [] := by
  intro names
  induction names with
  | nil =>
    intro ks h
    cases ks with
    | nil => rfl
    | cons a t => exact absurd (h a (List.mem_cons_self a t)) (by simp)
  | cons n rest ih =>
    intro ks h
    simp only [List.foldl_cons]
    apply ih
    intro x hx
    have hmem := List.mem_filter.mp hx
    have hxn : ¬ x = n := by
      have h2 : (!(x == n)) = true := hmem.2
      simpa using h2
    rcases List.mem_cons.mp (h x hmem.1) with h1 | h1
    · exact absurd h1 hxn
    · exact h1

/-- Claim C9: saveStateToFile first records the currently enabled plugin
names in the snapshot, then disables every one of them: afterwards the
pluginmap and both derived indexes are empty, while the written snapshot
still lists the previously enabled names. -/
theorem save_disables_all (disc : List PClass) (fuel : Nat) (st : SvcState)
    (hsn : st.scanning_now = false) (hf : 1 ≤ fuel) (hne : st.pluginmap ≠ []) :
    (saveStateToFile disc fuel st).1.pluginmap = [] ∧
    (saveStateToFile disc fuel st).1.watcher_map = [] ∧
    (saveStateToFile disc fuel st).1.command_map = [] ∧
    (saveStateToFile disc fuel st).2.pluginsEnabled = st.pluginmap.map Prod.fst := by
  have hnames : st.pluginmap.map Prod.fst ≠ [] := by
    intro h
    exact hne (List.map_eq_nil_iff.mp h)
  have hfold := foldDisable_facts disc fuel (st.pluginmap.map Prod.fst) st hsn
  have hkeys : ((st.pluginmap.map Prod.fst).foldl
      (fun s n => disable_plugin disc fuel n s) st).pluginmap.map Prod.fst = [] := by
    rw [hfold.1]
    exact foldl_filter_all _ _ (fun x hx => hx)
  have hpm : ((st.pluginmap.map Prod.fst).foldl
      (fun s n => disable_plugin disc fuel n s) st).pluginmap = [] :=
    List.map_eq_nil_iff.mp hkeys
  have hsplit := (List.dropLast_append_getLast hnames).symm
  have hdecomp : (st.pluginmap.map Prod.fst).foldl
      (fun s n => disable_plugin disc fuel n s) st
      = disable_plugin disc fuel ((st.pluginmap.map Prod.fst).getLast hnames)
          (((st.pluginmap.map Prod.fst).dropLast).foldl
            (fun s n => disable_plugin disc fuel n s) st) := by
    conv_lhs => rw [hsplit]
    rw [List.foldl_append]
    rfl
  have hsn2 : (((st.pluginmap.map Prod.fst).dropLast).foldl
      (fun s n => disable_plugin disc fuel n s) st).scanning_now = false :=
    (foldDisable_facts disc fuel _ st hsn).2
  have hmaps := disable_result_empty_maps disc fuel
    ((st.pluginmap.map Prod.fst).getLast hnames)
    (((st.pluginmap.map Prod.fst).dropLast).foldl
      (fun s n => disable_plugin disc fuel n s) st)
    hsn2 hf (by rw [← hdecomp]; exact hpm)
  refine ⟨hpm, ?_, ?_, rfl⟩
  · show ((st.pluginmap.map Prod.fst).foldl
      (fun s n => disable_plugin disc fuel n s) st).watcher_map = []
    rw [hdecomp]
    exact hmaps.1
  · show ((st.pluginmap.map Prod.fst).foldl
      (fun s n => disable_plugin disc fuel n s) st).command_map = []
    rw [hdecomp]
    exact hmaps.2

/-- A sample plugin class used in concrete registry runs. -/
def fooClass : PClass :=
  { cname := "Foo", interests := ["privmsg"], cmds := ["foo"],
    cmdMethods := [("foo", .hok)], initSave := none }

/-- A live instance of fooClass holding a truthy saved state. -/
def fooInstance : Instance :=
  { icls := fooClass, saveVal := some (.mk true 7), loadedVal := none }

/-- A one-plugin state used to exercise the C9 theorem. -/
def oneEnabledState : SvcState :=
  { pluginmap := [("Foo", .inst fooInstance)],
    statePlugins := [], watcher_map := [("privmsg", [])], command_map := [],
    auth := [], scanning_now := false, scan_again := false }

/-- Concrete run of the C9 theorem on a one-plugin state. -/
theorem save_disables_all_w :
    (saveStateToFile [] 1 oneEnabledState).1.pluginmap = [] ∧
    (saveStateToFile [] 1 oneEnabledState).1.watcher_map = [] ∧
    (saveStateToFile [] 1 oneEnabledState).1.command_map = [] ∧
    (saveStateToFile [] 1 oneEnabledState).2.pluginsEnabled
      = oneEnabledState.pluginmap.map Prod.fst :=
  save_disables_all [] 1 oneEnabledState rfl (by omega) (by simp [oneEnabledState])

/-! ### Marker activation during a rescan (for claims C6 and C8) -/

theorem freshInstance_icls (c : PClass) (sp : List (String × PObj)) :
    (freshInstance c sp).icls = c := by
  unfold freshInstance
  cases alookup c.cname sp with
  | none => rfl
  | some v =>
    by_cases h : v.isTruthy = true
    · simp [h]
    · simp [h]

theorem freshInstance_loaded (c : PClass) (sp : List (String × PObj)) (v : PObj)
    (hc : alookup c.cname sp = some v) (ht : v.isTruthy = true) :
    (freshInstance c sp).loadedVal = some v := by
  unfold freshInstance
  rw [hc]
  simp [ht]

theorem scanStep_inst_eq (st : SvcState) (c : PClass) (i : Instance)
    (h : alookup c.cname st.pluginmap = some (.inst i)) :
    scanStep st c = indexInstance i st := by
  unfold scanStep
  rw [h]

theorem scanStep_marker_eq (st : SvcState) (c : PClass)
    (h : alookup c.cname st.pluginmap = some .marker) :
    scanStep st c = indexInstance (freshInstance c st.statePlugins)
      { st with
        pluginmap := aupdate c.cname (.inst (freshInstance c st.statePlugins)) st.pluginmap,
        scan_again := true } := by
  unfold scanStep
  rw [h]

/-- One pass over `pre ++ cls :: post` keeps an existing instance entry for
`pname = cls.cname` and (re)indexes that instance under all its interests and
commands. -/
theorem scanPass_maintain (pre post : List PClass) (cls : PClass) (pname : String)
    (i0 : Instance) (hcname : cls.cname = pname) (st : SvcState)
    (h : alookup pname st.pluginmap = some (.inst i0)) :
    alookup pname (scanPass (pre ++ cls :: post) st).pluginmap = some (.inst i0) ∧
    (∀ ev ∈ i0.icls.interests, i0 ∈ lookupL ev (scanPass (pre ++ cls :: post) st).watcher_map) ∧
    (∀ cv ∈ i0.icls.cmds, i0 ∈ lookupL cv (scanPass (pre ++ cls :: post) st).command_map) := by
  unfold scanPass
  rw [List.foldl_append, List.foldl_cons]
  set A := List.foldl scanStep { st with watcher_map := [], command_map := [] } pre with hA
  have h1 : alookup pname A.pluginmap = some (.inst i0) := by
    rw [hA]
    exact foldl_inv scanStep (fun s => alookup pname s.pluginmap = some (.inst i0)) pre _
      (fun s2 c _ hp => scanStep_inst_entry s2 c pname i0 hp) h
  rw [scanStep_inst_eq A cls i0 (by rw [hcname]; exact h1)]
  have h2 := indexInstance_mem i0 A
  exact foldl_inv scanStep
    (fun s => alookup pname s.pluginmap = some (.inst i0) ∧
      (∀ ev ∈ i0.icls.interests, i0 ∈ lookupL ev s.watcher_map) ∧
      (∀ cv ∈ i0.icls.cmds, i0 ∈ lookupL cv s.command_map)) post _
    (fun s2 c _ hp => ⟨scanStep_inst_entry s2 c pname i0 hp.1,
      fun ev hev => scanStep_mem_watch s2 c i0 ev (hp.2.1 ev hev),
      fun cv hcv => scanStep_mem_cmd s2 c i0 cv (hp.2.2 cv hcv)⟩)
    ⟨h1, h2.1, h2.2⟩

/-- One pass over `pre ++ cls :: post` turns a marker entry for
`pname = cls.cname` (with no earlier class of that name) into the freshly
instantiated plugin, loading its persisted state, and indexes it. -/
theorem scanPass_activate (pre post : List PClass) (cls : PClass) (pname : String)
    (hcname : cls.cname = pname) (hpre : ∀ c ∈ pre, c.cname ≠ pname) (st : SvcState)
    (h : alookup pname st.pluginmap = some .marker) :
    alookup pname (scanPass (pre ++ cls :: post) st).pluginmap
      = some (.inst (freshInstance cls st.statePlugins)) ∧
    (∀ ev ∈ (freshInstance cls st.statePlugins).icls.interests,
      freshInstance cls st.statePlugins
        ∈ lookupL ev (scanPass (pre ++ cls :: post) st).watcher_map) ∧
    (∀ cv ∈ (freshInstance cls st.statePlugins).icls.cmds,
      freshInstance cls st.statePlugins
        ∈ lookupL cv (scanPass (pre ++ cls :: post) st).command_map) := by
  unfold scanPass
  rw [List.foldl_append, List.foldl_cons]
  set A := List.foldl scanStep { st with watcher_map := [], command_map := [] } pre with hA
  have hkeep : alookup pname A.pluginmap = some .marker ∧ A.statePlugins = st.statePlugins := by
    rw [hA]
    exact foldl_inv scanStep
      (fun s => alookup pname s.pluginmap = some .marker ∧ s.statePlugins = st.statePlugins)
      pre _
      (fun s2 c hc hp => ⟨scanStep_marker_entry s2 c pname (hpre c hc) hp.1,
        (scanStep_statePlugins s2 c).trans hp.2⟩)
      ⟨h, rfl⟩
  rw [scanStep_marker_eq A cls (by rw [hcname]; exact hkeep.1), hkeep.2]
  have hentry : alookup pname
      (indexInstance (freshInstance cls st.statePlugins)
        { A with
          pluginmap := aupdate cls.cname
            (.inst (freshInstance cls st.statePlugins)) A.pluginmap,
          scan_again := true }).pluginmap
      = some (.inst (freshInstance cls st.statePlugins)) := by
    show alookup pname (aupdate cls.cname _ A.pluginmap) = _
    rw [hcname]
    exact alookup_aupdate_self pname _ _
  have hidx := indexInstance_mem (freshInstance cls st.statePlugins)
    { A with
      pluginmap := aupdate cls.cname
        (.inst (freshInstance cls st.statePlugins)) A.pluginmap,
      scan_again := true }
  exact foldl_inv scanStep
    (fun s => alookup pname s.pluginmap = some (.inst (freshInstance cls st.statePlugins)) ∧
      (∀ ev ∈ (freshInstance cls st.statePlugins).icls.interests,
        freshInstance cls st.statePlugins ∈ lookupL ev s.watcher_map) ∧
      (∀ cv ∈ (freshInstance cls st.statePlugins).icls.cmds,
        freshInstance cls st.statePlugins ∈ lookupL cv s.command_map)) post _
    (fun s2 c _ hp => ⟨scanStep_inst_entry s2 c pname _ hp.1,
      fun ev hev => scanStep_mem_watch s2 c _ ev (hp.2.1 ev hev),
      fun cv hcv => scanStep_mem_cmd s2 c _ cv (hp.2.2 cv hcv)⟩)
    ⟨hentry, hidx.1, hidx.2⟩

/-- The scan loop keeps an instance entry and its indexing. -/
theorem scanLoop_maintain (pre post : List PClass) (cls : PClass) (pname : String)
    (i0 : Instance) (hcname : cls.cname = pname) :
    ∀ (f : Nat) (st : SvcState), alookup pname st.pluginmap = some (.inst i0) →
    alookup pname (scanLoop (pre ++ cls :: post) f st).pluginmap = some (.inst i0) ∧
    (∀ ev ∈ i0.icls.interests,
      i0 ∈ lookupL ev (scanLoop (pre ++ cls :: post) f st).watcher_map) ∧
    (∀ cv ∈ i0.icls.cmds,
      i0 ∈ lookupL cv (scanLoop (pre ++ cls :: post) f st).command_map) := by
  intro f
  induction f with
  | zero =>
    intro st h
    exact scanPass_maintain pre post cls pname i0 hcname { st with scan_again := false } h
  | succ g ih =>
    intro st h
    unfold scanLoop
    split
    · exact ih _ (scanPass_maintain pre post cls pname i0 hcname
        { st with scan_again := false } h).1
    · exact scanPass_maintain pre post cls pname i0 hcname { st with scan_again := false } h

/-- The scan loop activates a marker entry into the fresh instance and keeps
it indexed, whatever the fuel. -/
theorem scanLoop_activate (pre post : List PClass) (cls : PClass) (pname : String)
    (hcname : cls.cname = pname) (hpre : ∀ c ∈ pre, c.cname ≠ pname) :
    ∀ (f : Nat) (st : SvcState), alookup pname st.pluginmap = some .marker →
    alookup pname (scanLoop (pre ++ cls :: post) f st).pluginmap
      = some (.inst (freshInstance cls st.statePlugins)) ∧
    (∀ ev ∈ (freshInstance cls st.statePlugins).icls.interests,
      freshInstance cls st.statePlugins
        ∈ lookupL ev (scanLoop (pre ++ cls :: post) f st).watcher_map) ∧
    (∀ cv ∈ (freshInstance cls st.statePlugins).icls.cmds,
      freshInstance cls st.statePlugins
        ∈ lookupL cv (scanLoop (pre ++ cls :: post) f st).command_map) := by
  intro f
  cases f with
  | zero =>
    intro st h
    exact scanPass_activate pre post cls pname hcname hpre { st with scan_again := false } h
  | succ g =>
    intro st h
    unfold scanLoop
    split
    · have hact := scanPass_activate pre post cls pname hcname hpre
        { st with scan_again := false } h
      exact scanLoop_maintain pre post cls pname (freshInstance cls st.statePlugins)
        hcname g _ hact.1
    · exact scanPass_activate pre post cls pname hcname hpre { st with scan_again := false } h

/-- scan_plugins (from outside a scan, with fuel) activates a marker entry
into the fresh instance, restoring persisted state, and indexes it. -/
theorem scan_plugins_activate (pre post : List PClass) (cls : PClass) (pname : String)
    (fuel : Nat) (st : SvcState) (hcname : cls.cname = pname)
    (hpre : ∀ c ∈ pre, c.cname ≠ pname) (hsn : st.scanning_now = false) (hf : 1 ≤ fuel)
    (h : alookup pname st.pluginmap = some .marker) :
    alookup pname (scan_plugins (pre ++ cls :: post) fuel st).pluginmap
      = some (.inst (freshInstance cls st.statePlugins)) ∧
    (∀ ev ∈ (freshInstance cls st.statePlugins).icls.interests,
      freshInstance cls st.statePlugins
        ∈ lookupL ev (scan_plugins (pre ++ cls :: post) fuel st).watcher_map) ∧
    (∀ cv ∈ (freshInstance cls st.statePlugins).icls.cmds,
      freshInstance cls st.statePlugins
        ∈ lookupL cv (scan_plugins (pre ++ cls :: post) fuel st).command_map) := by
  cases fuel with
  | zero => omega
  | succ f =>
    unfold scan_plugins
    rw [hsn, if_neg (by simp)]
    show alookup pname (scanLoop (pre ++ cls :: post) f
        { st with scanning_now := true }).pluginmap = _ ∧ _ ∧ _
    exact scanLoop_activate pre post cls pname hcname hpre f
      { st with scanning_now := true } h

/-- The scan loop is insensitive to the maps the state starts with: the first
pass rebuilds both indexes from scratch. -/
theorem scanLoop_maps_insensitive (disc : List PClass) (f : Nat) (st : SvcState)
    (wm cm : List (String × List Instance)) :
    scanLoop disc f { st with watcher_map := wm, command_map := cm } = scanLoop disc f st := by
  cases f with
  | zero => rfl
  | succ g => rfl

/-- enable_plugin_by_name discards the prior indexes: it triggers a rebuild
no matter what they contained. -/
theorem enable_by_name_maps_insensitive (disc : List PClass) (fuel : Nat) (pname : String)
    (st : SvcState) (wm cm : List (String × List Instance))
    (hsn : st.scanning_now = false) (hf : 1 ≤ fuel) :
    enable_plugin_by_name disc fuel pname { st with watcher_map := wm, command_map := cm }
      = enable_plugin_by_name disc fuel pname st := by
  cases fuel with
  | zero => omega
  | succ f =>
    have e1 : enable_plugin_by_name disc (f + 1) pname
        { st with watcher_map := wm, command_map := cm }
        = { (scanLoop disc f
            { st with
              watcher_map := wm
              command_map := cm
              pluginmap := asetdefault pname .marker st.pluginmap
              scanning_now := true }) with
            scanning_now := false } := by
      unfold enable_plugin_by_name scan_plugins
      rw [if_neg (by simp [hsn])]
    have e2 : enable_plugin_by_name disc (f + 1) pname st
        = { (scanLoop disc f
            { st with
              pluginmap := asetdefault pname .marker st.pluginmap
              scanning_now := true }) with
            scanning_now := false } := by
      unfold enable_plugin_by_name scan_plugins
      rw [if_neg (by simp [hsn])]
    rw [e1, e2]
    exact congrArg (fun s => { s with scanning_now := false })
      (scanLoop_maps_insensitive disc f
        { st with
          pluginmap := asetdefault pname .marker st.pluginmap
          scanning_now := true }
        wm cm)

/-- Claim C8: enableByName of a name with no discoverable descriptor reserves
the name as enabled-but-missing (the sentinel stays in the pluginmap) and
still triggers an index rebuild (the resulting indexes do not depend on the
prior ones); a later rescan whose discoverable set contains a class of that
name (first such class `cls`) instantiates it with its persisted state and
leaves it fully enabled and indexed, with no second enableByName call. -/
theorem enable_missing_then_rescan
    (disc1 pre post : List PClass) (cls : PClass) (fuel1 fuel2 : Nat)
    (st : SvcState) (pname : String)
    (h0 : st.scanning_now = false)
    (h1 : alookup pname st.pluginmap = none)
    (h2 : ∀ c ∈ disc1, c.cname ≠ pname)
    (hcname : cls.cname = pname)
    (hpre : ∀ c ∈ pre, c.cname ≠ pname)
    (hf1 : 1 ≤ fuel1) (hf2 : 1 ≤ fuel2) :
    alookup pname (enable_plugin_by_name disc1 fuel1 pname st).pluginmap
      = some .marker ∧
    (∀ wm cm, enable_plugin_by_name disc1 fuel1 pname
        { st with watcher_map := wm, command_map := cm }
      = enable_plugin_by_name disc1 fuel1 pname st) ∧
    alookup pname (scan_plugins (pre ++ cls :: post) fuel2
        (enable_plugin_by_name disc1 fuel1 pname st)).pluginmap
      = some (.inst (freshInstance cls st.statePlugins)) ∧
    (∀ ev ∈ cls.interests, freshInstance cls st.statePlugins ∈
      lookupL ev (scan_plugins (pre ++ cls :: post) fuel2
        (enable_plugin_by_name disc1 fuel1 pname st)).watcher_map) ∧
    (∀ cv ∈ cls.cmds, freshInstance cls st.statePlugins ∈
      lookupL cv (scan_plugins (pre ++ cls :: post) fuel2
        (enable_plugin_by_name disc1 fuel1 pname st)).command_map) := by
  have hmark0 : alookup pname
      ({ st with pluginmap := asetdefault pname .marker st.pluginmap } : SvcState).pluginmap
      = some .marker := alookup_asetdefault_absent pname .marker st.pluginmap h1
  have hmark : alookup pname (enable_plugin_by_name disc1 fuel1 pname st).pluginmap
      = some .marker := by
    unfold enable_plugin_by_name
    exact scan_plugins_marker_entry disc1 fuel1 _ pname h2 hmark0
  have hsp1 : (enable_plugin_by_name disc1 fuel1 pname st).statePlugins
      = st.statePlugins := by
    unfold enable_plugin_by_name
    exact scan_plugins_statePlugins disc1 fuel1 _
  have hsn1 : (enable_plugin_by_name disc1 fuel1 pname st).scanning_now = false := by
    unfold enable_plugin_by_name
    exact scan_plugins_scanningNow disc1 fuel1 _ h0
  have hact := scan_plugins_activate pre post cls pname fuel2
    (enable_plugin_by_name disc1 fuel1 pname st) hcname hpre hsn1 hf2 hmark
  rw [hsp1, freshInstance_icls] at hact
  exact ⟨hmark,
    fun wm cm => enable_by_name_maps_insensitive disc1 fuel1 pname st wm cm h0 hf1,
    hact.1, hact.2.1, hact.2.2⟩

/-- Concrete run of the C8 theorem: Foo is enabled while undiscoverable,
stays reserved as the sentinel, and a later rescan with fooClass discoverable
auto-activates and indexes it. -/
theorem enable_missing_then_rescan_w :
    alookup "Foo" (enable_plugin_by_name [] 1 "Foo" initSvcState).pluginmap
      = some .marker ∧
    (∀ wm cm, enable_plugin_by_name [] 1 "Foo"
        { initSvcState with watcher_map := wm, command_map := cm }
      = enable_plugin_by_name [] 1 "Foo" initSvcState) ∧
    alookup "Foo" (scan_plugins ([] ++ fooClass :: []) 1
        (enable_plugin_by_name [] 1 "Foo" initSvcState)).pluginmap
      = some (.inst (freshInstance fooClass initSvcState.statePlugins)) ∧
    (∀ ev ∈ fooClass.interests, freshInstance fooClass initSvcState.statePlugins ∈
      lookupL ev (scan_plugins ([] ++ fooClass :: []) 1
        (enable_plugin_by_name [] 1 "Foo" initSvcState)).watcher_map) ∧
    (∀ cv ∈ fooClass.cmds, freshInstance fooClass initSvcState.statePlugins ∈
      lookupL cv (scan_plugins ([] ++ fooClass :: []) 1
        (enable_plugin_by_name [] 1 "Foo" initSvcState)).command_map) :=
  enable_missing_then_rescan [] [] [] fooClass 1 1 initSvcState "Foo" rfl rfl
    (by simp) rfl (by simp) (by omega) (by omega)

/-- Claim C6: disabling an enabled plugin whose saveState returns a truthy
value harvests that value into state['plugins'] and removes the instance
from the enabled set; a subsequent enableByName of the same name (with the
class discoverable) creates a new instance whose loadState received that
exact value. -/
theorem disable_enable_roundtrip
    (disc pre post : List PClass) (cls : PClass) (fuel1 fuel2 : Nat) (st : SvcState)
    (pname : String) (i : Instance) (v : PObj)
    (hsn : st.scanning_now = false)
    (hlook : alookup pname st.pluginmap = some (.inst i))
    (hsave : i.saveVal = some v)
    (htruthy : v.isTruthy = true)
    (hdisc : disc = pre ++ cls :: post)
    (hpre : ∀ c ∈ pre, c.cname ≠ pname)
    (hcname : cls.cname = pname)
    (hf2 : 1 ≤ fuel2) :
    alookup pname (disable_plugin disc fuel1 pname st).statePlugins = some v ∧
    alookup pname (disable_plugin disc fuel1 pname st).pluginmap = none ∧
    ∃ j : Instance,
      alookup pname (enable_plugin_by_name disc fuel2 pname
          (disable_plugin disc fuel1 pname st)).pluginmap = some (.inst j) ∧
      j.loadedVal = some v := by
  subst hdisc
  have hd : disable_plugin (pre ++ cls :: post) fuel1 pname st
      = scan_plugins (pre ++ cls :: post) fuel1
          { st with
            pluginmap := aerase pname st.pluginmap
            statePlugins := aupdate pname v st.statePlugins } := by
    simp only [disable_plugin, hlook, hsave]
  have hs1 : alookup pname (disable_plugin (pre ++ cls :: post) fuel1 pname st).statePlugins
      = some v := by
    rw [hd, scan_plugins_statePlugins]
    exact alookup_aupdate_self pname v st.statePlugins
  have hnone : alookup pname (disable_plugin (pre ++ cls :: post) fuel1 pname st).pluginmap
      = none := by
    rw [hd]
    exact scan_plugins_none_entry (pre ++ cls :: post) fuel1 _ pname
      (alookup_aerase_self pname st.pluginmap)
  have hsn1 : (disable_plugin (pre ++ cls :: post) fuel1 pname st).scanning_now = false :=
    disable_scanningNow (pre ++ cls :: post) fuel1 pname st hsn
  set D := disable_plugin (pre ++ cls :: post) fuel1 pname st with hD
  have hmark : alookup pname
      ({ D with pluginmap := asetdefault pname .marker D.pluginmap } : SvcState).pluginmap
      = some .marker := alookup_asetdefault_absent pname .marker D.pluginmap hnone
  have hact := scan_plugins_activate pre post cls pname fuel2
    { D with pluginmap := asetdefault pname .marker D.pluginmap } hcname hpre hsn1 hf2 hmark
  refine ⟨hs1, hnone, freshInstance cls D.statePlugins, ?_, ?_⟩
  · exact hact.1
  · exact freshInstance_loaded cls D.statePlugins v (by rw [hcname]; exact hs1) htruthy

/-- Concrete run of the C6 theorem: disabling Foo stores its truthy state, a
new enable hands exactly that value back through loadState. -/
theorem disable_enable_roundtrip_w :
    alookup "Foo" (disable_plugin [fooClass] 1 "Foo" oneEnabledState).statePlugins
      = some (PObj.mk true 7) ∧
    alookup "Foo" (disable_plugin [fooClass] 1 "Foo" oneEnabledState).pluginmap = none ∧
    ∃ j : Instance,
      alookup "Foo" (enable_plugin_by_name [fooClass] 2 "Foo"
          (disable_plugin [fooClass] 1 "Foo" oneEnabledState)).pluginmap
        = some (.inst j) ∧
      j.loadedVal = some (PObj.mk true 7) :=
  disable_enable_roundtrip [fooClass] [] [] fooClass 1 2 oneEnabledState "Foo" fooInstance
    (PObj.mk true 7) rfl rfl rfl rfl rfl (by simp) rfl (by omega)

end Cassbot
